import Mathlib

/-!
Shallow embedding of the auto-categorisation pipeline of this repository:
rules.py, uploads_logic/signals.py, fuse.py, rishabh_code/uploads_logic/resolver.py
and entity_role_infer.py.

Python floats are modelled as rationals (the constants involved are exact
decimals; display-only rounding `round(x, 3)` is omitted, the code computes
statuses and comparisons on the unrounded values).  Regular expressions are
modelled as executable matchers over character lists, with Python `re.I`
case-insensitivity and `\b` word boundaries made explicit.  External
collaborators (database access, the sentence-transformers embedder, the numpy
cosine) are passed in as explicit parameters, as the spec directs for
collaborator boundaries.
-/

namespace AutoCat

abbrev Chars := List Char

/-- Python regex word character (`\w`, ASCII range as used by these documents). -/
def isWordChar (c : Char) : Bool := c.isAlphanum || c = '_'

/-- Python regex whitespace character (`\s`). -/
def isWsChar (c : Char) : Bool :=
  c = ' ' || c = '\t' || c = '\n' || c = '\r' || c = '\x0b' || c = '\x0c'

/-- Word boundary test before the match position (`\b` with a word char next). -/
def bdryBefore (prev : Option Char) : Bool :=
  match prev with
  | none => true
  | some c => !isWordChar c

/-- Word boundary test after the match (`\b` with a word char just consumed). -/
def bdryAfterOk (rest : Chars) : Bool :=
  match rest with
  | [] => true
  | c :: _ => !isWordChar c

/-- Case-insensitive literal match at the head; the literal is given lower case.
Returns the remaining input on success. -/
def litAt : Chars → Chars → Option Chars
  | [], cs => some cs
  | _ :: _, [] => none
  | l :: ls, c :: cs => if c.toLower = l then litAt ls cs else none

/-- Case-insensitive literal match at the head keeping the consumed original
characters (for `m.group(0)` spans). -/
def litAtKeep : Chars → Chars → Option (Chars × Chars)
  | [], cs => some ([], cs)
  | _ :: _, [] => none
  | l :: ls, c :: cs =>
    if c.toLower = l then
      match litAtKeep ls cs with
      | some (m, r) => some (c :: m, r)
      | none => none
    else none

/-- Greedy `\s*`. -/
def dropWs (cs : Chars) : Chars := cs.dropWhile isWsChar

/-- Greedy `\s+` (at least one whitespace character). -/
def wsPlus (cs : Chars) : Option Chars :=
  match cs with
  | c :: rest => if isWsChar c then some (dropWs rest) else none
  | [] => none

/-- Match a `\s+`-separated sequence of literal words at the head, returning the
rest; the words are given lower case. -/
def seqAt : List Chars → Chars → Option Chars
  | [], cs => some cs
  | [w], cs => litAt w cs
  | w :: ws, cs =>
    match litAt w cs with
    | none => none
    | some rest =>
      match wsPlus rest with
      | none => none
      | some rest2 => seqAt ws rest2

/-- Word-bounded `\bW1\s+W2...\b` test at one position (all our words start and
end with word characters, so the boundaries reduce to these two tests). -/
def wordSeqAt (ws : List Chars) (prev : Option Char) (cs : Chars) : Bool :=
  bdryBefore prev &&
    (match seqAt ws cs with
     | some rest => bdryAfterOk rest
     | none => false)

/-- Scan every position of the input, tracking the previous character for word
boundaries; mirrors `re.search` finding the leftmost match. -/
def searchFrom (p : Option Char → Chars → Bool) : Option Char → Chars → Bool
  | prev, [] => p prev []
  | prev, c :: cs => p prev (c :: cs) || searchFrom p (some c) cs

/-- Leftmost search returning the matched span (for `m.group(0)` extraction). -/
def searchSpanFrom (m : Option Char → Chars → Option Chars) :
    Option Char → Chars → Option Chars
  | prev, [] => m prev []
  | prev, c :: cs =>
    match m prev (c :: cs) with
    | some r => some r
    | none => searchSpanFrom m (some c) cs

/-- Alternation of word-bounded literal word sequences, as a whole-string
searcher; covers the simple `\bA\s+B\b|\bC\b|...` regexes of rules.py. -/
def rxWords (alts : List (List String)) (s : String) : Bool :=
  searchFrom
    (fun prev cs => alts.any (fun ws => wordSeqAt (ws.map String.data) prev cs))
    none s.data

/-- Match exactly `n` characters of a class, keeping them. -/
def classN (f : Char → Bool) : Nat → Chars → Option (Chars × Chars)
  | 0, cs => some ([], cs)
  | _ + 1, [] => none
  | n + 1, c :: cs =>
    if f c then
      match classN f n cs with
      | some (m, r) => some (c :: m, r)
      | none => none
    else none

/-- Substring containment (Python `token in base`), case-sensitive; both sides
are already lower-cased by the callers. -/
def startsList : Chars → Chars → Bool
  | [], _ => true
  | _ :: _, [] => false
  | a :: as, b :: bs => a = b && startsList as bs

def containsChars (sub : Chars) : Chars → Bool
  | [] => startsList sub []
  | c :: cs => startsList sub (c :: cs) || containsChars sub cs

def containsSub (s sub : String) : Bool := containsChars sub.data s.data

/-- Python `str.lower()` (ASCII, as these documents); the core `String.toLower`
is avoided because its byte-position recursion does not reduce in the kernel. -/
def lowerStr (s : String) : String := String.mk (s.data.map Char.toLower)

/-- Python `str.upper()` (ASCII). -/
def upperStr (s : String) : String := String.mk (s.data.map Char.toUpper)

/-- Python `str.endswith` on exact characters. -/
def endsWithStr (s suf : String) : Bool := startsList suf.data.reverse s.data.reverse

/-- Python `str.strip()`: whitespace removed from both ends. -/
def trimStr (s : String) : String :=
  String.mk (((s.data.dropWhile isWsChar).reverse.dropWhile isWsChar).reverse)

/-! Strong identifier regexes of rules.py (all compiled with `re.I`, so the
letter classes accept both cases); the span matchers return `m.group(0)` in
the original case. -/

/-- The class `[1-9A-Z]` under `re.I`. -/
def isGstChk (c : Char) : Bool := c.isAlpha || (c.isDigit && c != '0')

/-- PAN_RX = `\b[A-Z]{5}[0-9]{4}[A-Z]\b` at one position. -/
def panAt (prev : Option Char) (cs : Chars) : Option Chars :=
  if !bdryBefore prev then none else
  match classN Char.isAlpha 5 cs with
  | none => none
  | some (a, r1) =>
    match classN Char.isDigit 4 r1 with
    | none => none
    | some (d, r2) =>
      match classN Char.isAlpha 1 r2 with
      | none => none
      | some (z, r3) => if bdryAfterOk r3 then some (a ++ d ++ z) else none

/-- TAN_RX = `\b[A-Z]{4}[0-9]{5}[A-Z]\b` at one position. -/
def tanAt (prev : Option Char) (cs : Chars) : Option Chars :=
  if !bdryBefore prev then none else
  match classN Char.isAlpha 4 cs with
  | none => none
  | some (a, r1) =>
    match classN Char.isDigit 5 r1 with
    | none => none
    | some (d, r2) =>
      match classN Char.isAlpha 1 r2 with
      | none => none
      | some (z, r3) => if bdryAfterOk r3 then some (a ++ d ++ z) else none

/-- GSTIN_RX = `\b\d{2}[A-Z]{5}\d{4}[A-Z][1-9A-Z]Z[0-9A-Z]\b` at one position. -/
def gstinAt (prev : Option Char) (cs : Chars) : Option Chars :=
  if !bdryBefore prev then none else
  match classN Char.isDigit 2 cs with
  | none => none
  | some (p1, r1) =>
    match classN Char.isAlpha 5 r1 with
    | none => none
    | some (p2, r2) =>
      match classN Char.isDigit 4 r2 with
      | none => none
      | some (p3, r3) =>
        match classN Char.isAlpha 1 r3 with
        | none => none
        | some (p4, r4) =>
          match classN isGstChk 1 r4 with
          | none => none
          | some (p5, r5) =>
            match classN (fun c => c.toLower = 'z') 1 r5 with
            | none => none
            | some (p6, r6) =>
              match classN Char.isAlphanum 1 r6 with
              | none => none
              | some (p7, r7) =>
                if bdryAfterOk r7 then
                  some (p1 ++ p2 ++ p3 ++ p4 ++ p5 ++ p6 ++ p7)
                else none

/-- CIN_RX = `\b[UL]\d{2}[A-Z]{3}\d{4}[A-Z]{3}\d{6}\b` at one position. -/
def cinAt (prev : Option Char) (cs : Chars) : Option Chars :=
  if !bdryBefore prev then none else
  match classN (fun c => c.toLower = 'u' || c.toLower = 'l') 1 cs with
  | none => none
  | some (p1, r1) =>
    match classN Char.isDigit 2 r1 with
    | none => none
    | some (p2, r2) =>
      match classN Char.isAlpha 3 r2 with
      | none => none
      | some (p3, r3) =>
        match classN Char.isDigit 4 r3 with
        | none => none
        | some (p4, r4) =>
          match classN Char.isAlpha 3 r4 with
          | none => none
          | some (p5, r5) =>
            match classN Char.isDigit 6 r5 with
            | none => none
            | some (p6, r6) =>
              if bdryAfterOk r6 then
                some (p1 ++ p2 ++ p3 ++ p4 ++ p5 ++ p6)
              else none

/-- LLPIN_RX = `\bLLPIN\b[:\s-]*[A-Z]{3}-?\d{4}\b` at one position; the `[:\s-]*`
star is deterministic because its class is disjoint from the letters required
next. -/
def llpinAt (prev : Option Char) (cs : Chars) : Option Chars :=
  if !bdryBefore prev then none else
  match litAtKeep "llpin".data cs with
  | none => none
  | some (lab, r1) =>
    if !bdryAfterOk r1 then none else
    let sep := r1.takeWhile (fun c => c = ':' || isWsChar c || c = '-')
    let r2 := r1.drop sep.length
    match classN Char.isAlpha 3 r2 with
    | none => none
    | some (a3, r3) =>
      let dash := if r3.headD ' ' = '-' then ['-'] else []
      let r4 := if r3.headD ' ' = '-' then r3.tail else r3
      match classN Char.isDigit 4 r4 with
      | none => none
      | some (d4, r5) =>
        if bdryAfterOk r5 then some (lab ++ sep ++ a3 ++ dash ++ d4) else none

/-- Leftmost regex search for a span matcher, on a string. -/
def rxSpan (m : Option Char → Chars → Option Chars) (s : String) : Option String :=
  (searchSpanFrom m none s.data).map String.mk

def panSearch (s : String) : Option String := rxSpan panAt s
def tanSearch (s : String) : Option String := rxSpan tanAt s
def gstinSearch (s : String) : Option String := rxSpan gstinAt s
def cinSearch (s : String) : Option String := rxSpan cinAt s
def llpinSearch (s : String) : Option String := rxSpan llpinAt s

/-! NAME_RX of entity_role_infer.py:
`(?:Name|Legal Name|Name of (?:Business|Company)|Account Name)\s*[:\-]\s*([A-Z0-9&.,() /\-]+)`
(`re.I`, no word boundaries).  The span matcher returns the capture group. -/

/-- Character class of the NAME_RX capture group, under `re.I`. -/
def isNameCls (c : Char) : Bool :=
  c.isAlpha || c.isDigit || c = '&' || c = '.' || c = ',' || c = '(' ||
  c = ')' || c = ' ' || c = '/' || c = '-'

/-- The `\s*(cls+)` tail of NAME_RX with regex backtracking: greedy `\s*` first,
then, because a space is itself in the capture class, give whitespace back one
character at a time; the salvaged capture is then a single space. -/
def captureAfter (cs : Chars) : Option Chars :=
  let w := cs.takeWhile isWsChar
  let r := cs.drop w.length
  let cap := r.takeWhile isNameCls
  if cap.length ≠ 0 then some cap
  else if w.contains ' ' then some [' ']
  else none

/-- The `\s*[:\-]` separator followed by the capture. -/
def afterLabel (rest : Chars) : Option Chars :=
  match dropWs rest with
  | c :: r2 => if c = ':' || c = '-' then captureAfter r2 else none
  | [] => none

/-- Try the label alternatives at one position in the regex engine's order,
backtracking to the next alternative when the tail fails. -/
def tryLabels : List Chars → Chars → Option Chars
  | [], _ => none
  | lab :: rest, cs =>
    match litAt lab cs with
    | some r =>
      match afterLabel r with
      | some cap => some cap
      | none => tryLabels rest cs
    | none => tryLabels rest cs

def nameLabels : List Chars :=
  ["name".data, "legal name".data, "name of business".data,
   "name of company".data, "account name".data]

def nameAt (_prev : Option Char) (cs : Chars) : Option Chars := tryLabels nameLabels cs

def nameSearch (s : String) : Option String := rxSpan nameAt s

/-! The remaining detector regexes of rules.py, as boolean searchers.  Most are
alternations of word-bounded literal word sequences and use `rxWords`; the few
with `\s*`, optional groups or `.*` get bespoke matchers.  Optional groups that
only extend a match (for example `(Provisional\s+)?` before a phrase that
already matches alone) are dropped: they cannot change whether `re.search`
succeeds. -/

def aadhaarB (s : String) : Bool := rxWords [["aadhaar"]] s

def coiB (s : String) : Bool :=
  rxWords [["certificate", "of", "incorporation"], ["coi"]] s

def moaB (s : String) : Bool :=
  rxWords [["memorandum", "of", "association"], ["moa"]] s

def aoaB (s : String) : Bool :=
  rxWords [["articles", "of", "association"], ["aoa"]] s

def reraB (s : String) : Bool :=
  rxWords [["rera"], ["tsrera"], ["krera"], ["k-rera"]] s

def hmdaB (s : String) : Bool :=
  rxWords [["hyderabad", "metropolitan", "development", "authority"], ["hmda"]] s

def dcB (s : String) : Bool :=
  rxWords [["development", "permission"], ["dc", "letter"],
           ["building", "permission"]] s

def bpoB (s : String) : Bool :=
  rxWords [["building", "permit", "order"], ["permit", "order"]] s

/-- FIRE_RX = `\b(Provisional\s+)?No\s*Objection\s*Certificate\b.*\bFire\b`
(no `re.S`, so the `.*` stays on one line).  The inner separators are `\s*`
and may be empty. -/
def fireAt (prev : Option Char) (cs : Chars) : Bool :=
  bdryBefore prev &&
    (match litAt "no".data cs with
     | none => false
     | some r1 =>
       match litAt "objection".data (dropWs r1) with
       | none => false
       | some r2 =>
         match litAt "certificate".data (dropWs r2) with
         | none => false
         | some r3 =>
           bdryAfterOk r3 &&
             searchFrom (fun p c => wordSeqAt ["fire".data] p c) (some 'e')
               (r3.takeWhile (fun c => c ≠ '\n')))

def fireB (s : String) : Bool := searchFrom fireAt none s.data

def pcbB (s : String) : Bool :=
  rxWords [["pollution", "control", "board"], ["consent", "to", "establish"],
           ["consent", "to", "operate"], ["cte"], ["cto"]] s

/-- AAI_RX = `\bAirports?\s+Authority\s+of\s+India\b|\bAAI\b.*\bheight...`,
precisely `...|\bAAI\b.*\bNOC\b|\bheight\s+clearance\b`; the middle alternative
keeps `.*` on one line. -/
def aaiMidAt (prev : Option Char) (cs : Chars) : Bool :=
  bdryBefore prev &&
    (match litAt "aai".data cs with
     | none => false
     | some r1 =>
       bdryAfterOk r1 &&
         searchFrom (fun p c => wordSeqAt ["noc".data] p c) (some 'i')
           (r1.takeWhile (fun c => c ≠ '\n')))

def aaiB (s : String) : Bool :=
  rxWords [["airport", "authority", "of", "india"],
           ["airports", "authority", "of", "india"],
           ["height", "clearance"]] s
  || searchFrom aaiMidAt none s.data

def bwssbB (s : String) : Bool :=
  rxWords [["bwssb"], ["water", "supply"], ["water", "connection"]] s

def hmwsB (s : String) : Bool :=
  rxWords [["hmws&sb"], ["hyderabad", "metropolitan", "water"]] s

def bescomB (s : String) : Bool :=
  rxWords [["bescom"], ["bangalore", "electricity"]] s

def bsnlB (s : String) : Bool :=
  rxWords [["bharat", "sanchar", "nigam", "limited"], ["bsnl"]] s

def ecB (s : String) : Bool :=
  rxWords [["encumbrance", "certificate"], ["form", "15"], ["form", "16"]] s

def pahaniB (s : String) : Bool :=
  rxWords [["pahani"], ["1b"], ["ror"], ["adangal"]] s

def passbookB (s : String) : Bool := rxWords [["passbook"]] s

/-- DAGPA_RX = `\bDevelopment\s+Agreement[-\s]*cum\s+GPA\b|\bDAGPA\b`; the
`[-\s]*` star is deterministic (its class is disjoint from the letter that
must follow). -/
def dagpaLongAt (prev : Option Char) (cs : Chars) : Bool :=
  bdryBefore prev &&
    (match seqAt ["development".data, "agreement".data] cs with
     | none => false
     | some r1 =>
       let r2 := r1.dropWhile (fun c => c = '-' || isWsChar c)
       match litAt "cum".data r2 with
       | none => false
       | some r3 =>
         match wsPlus r3 with
         | none => false
         | some r4 =>
           match litAt "gpa".data r4 with
           | none => false
           | some r5 => bdryAfterOk r5)

def dagpaB (s : String) : Bool :=
  searchFrom dagpaLongAt none s.data || rxWords [["dagpa"]] s

def jdaB (s : String) : Bool :=
  rxWords [["joint", "development", "agreement"], ["jda"]] s

def gpaB (s : String) : Bool :=
  rxWords [["general", "power", "of", "attorney"], ["gpa"]] s

def nalaB (s : String) : Bool :=
  rxWords [["nala"], ["nonagricultural", "land", "assessment"],
           ["non-agricultural", "land", "assessment"]] s

def lucB (s : String) : Bool :=
  rxWords [["land", "use", "certificate"], ["luc"]] s

def tdrB (s : String) : Bool :=
  rxWords [["transfer", "of", "development", "rights"], ["tdr"]] s

def partnershipDeedB (s : String) : Bool :=
  rxWords [["partnership", "deed"], ["firm", "registration"]] s

def commencementB (s : String) : Bool :=
  rxWords [["commencement", "certificate"], ["commencement", "letter"]] s

/-- The `Pvt\.?\s+Limited` alternative of COMPANY_MARKERS_RX (optional dot). -/
def pvtLimitedAt (prev : Option Char) (cs : Chars) : Bool :=
  bdryBefore prev &&
    (match litAt "pvt".data cs with
     | none => false
     | some r1 =>
       let r2 := if r1.headD ' ' = '.' then r1.tail else r1
       match wsPlus r2 with
       | none => false
       | some r3 =>
         match litAt "limited".data r3 with
         | none => false
         | some r4 => bdryAfterOk r4)

/-- COMPANY_MARKERS_RX =
`\b(Pvt\.?|Private)\s+Limited\b|\bLLP\b|\bLLPIN\b|\bCIN\b|\bCompany\b|\bInc\b|\bLtd\b`. -/
def companyMarkersB (s : String) : Bool :=
  searchFrom pvtLimitedAt none s.data ||
    rxWords [["private", "limited"], ["llp"], ["llpin"], ["cin"],
             ["company"], ["inc"], ["ltd"]] s

/-- LEI_RX = `\b(?:Legal\s+Entity\s+Identifier|LEI)\b.*?\b([A-Z0-9]{20})\b`
with `re.S` (the gap may cross lines).  The position just after the label is
blocked by the label's own trailing `\b` (the rest starts with a non-word
character), so a word-char dummy previous character is sound there. -/
def leiCodeAt (prev : Option Char) (cs : Chars) : Bool :=
  bdryBefore prev &&
    (match classN Char.isAlphanum 20 cs with
     | some (_, r) => bdryAfterOk r
     | none => false)

def leiLabelAt (prev : Option Char) (cs : Chars) : Bool :=
  bdryBefore prev &&
    ([["legal".data, "entity".data, "identifier".data], ["lei".data]].any
      (fun ws =>
        match seqAt ws cs with
        | some rest => bdryAfterOk rest && searchFrom leiCodeAt (some 'a') rest
        | none => false))

def leiB (s : String) : Bool := searchFrom leiLabelAt none s.data

/-- BANK_STMT_RX =
`\b(Account\s+Statement|Statement\s+of\s+Account|SOA|Account\s+No\.?|A/c\s+No\.?|IFSC)\b`.
The `No\.?\b` tail is equivalent to `No\b`: with the dot the boundary needs a
word character after the dot, without it the dot itself provides the boundary,
so the two branches together accept exactly a boundary after `No`. -/
def bankStmtB (s : String) : Bool :=
  rxWords [["account", "statement"], ["statement", "of", "account"], ["soa"],
           ["account", "no"], ["a/c", "no"], ["ifsc"]] s

def gstinB (s : String) : Bool := (gstinSearch s).isSome
def cinB (s : String) : Bool := (cinSearch s).isSome
def llpinB (s : String) : Bool := (llpinSearch s).isSome
def panB (s : String) : Bool := (panSearch s).isSome
def tanB (s : String) : Bool := (tanSearch s).isSome

/-! The rule engine of rules.py. -/

/-- A compiled detector: the regex source text (used for hit reasons) and its
search function. -/
structure Rx where
  pattern : String
  search : String → Bool

def PAN_RX : Rx := ⟨"\\b[A-Z]{5}[0-9]{4}[A-Z]\\b", panB⟩
def TAN_RX : Rx := ⟨"\\b[A-Z]{4}[0-9]{5}[A-Z]\\b", tanB⟩
def GSTIN_RX : Rx := ⟨"\\b\\d{2}[A-Z]{5}\\d{4}[A-Z][1-9A-Z]Z[0-9A-Z]\\b", gstinB⟩
def LEI_RX : Rx :=
  ⟨"\\b(?:Legal\\s+Entity\\s+Identifier|LEI)\\b.*?\\b([A-Z0-9]{20})\\b", leiB⟩
def CIN_RX : Rx := ⟨"\\b[UL]\\d{2}[A-Z]{3}\\d{4}[A-Z]{3}\\d{6}\\b", cinB⟩
def LLPIN_RX : Rx := ⟨"\\bLLPIN\\b[:\\s-]*[A-Z]{3}-?\\d{4}\\b", llpinB⟩
def COI_RX : Rx := ⟨"\\bCertificate\\s+of\\s+Incorporation\\b|\\bCOI\\b", coiB⟩
def MOA_RX : Rx := ⟨"\\bMemorandum\\s+of\\s+Association\\b|\\bMOA\\b", moaB⟩
def AOA_RX : Rx := ⟨"\\bArticles\\s+of\\s+Association\\b|\\bAOA\\b", aoaB⟩
def AADHAAR_RX : Rx := ⟨"\\bAadhaar\\b", aadhaarB⟩
def RERA_RX : Rx := ⟨"\\bRERA\\b|\\bTSRERA\\b|\\bK-?RERA\\b", reraB⟩
def HMDA_RX : Rx :=
  ⟨"\\bHyderabad\\s+Metropolitan\\s+Development\\s+Authority\\b|\\bHMDA\\b", hmdaB⟩
def DC_RX : Rx :=
  ⟨"\\bDevelopment\\s+Permission\\b|\\bDC\\s+Letter\\b|\\bBuilding\\s+Permission\\b", dcB⟩
def BPO_RX : Rx := ⟨"\\bBuilding\\s+Permit\\s+Order\\b|\\bPermit\\s+Order\\b", bpoB⟩
def FIRE_RX : Rx :=
  ⟨"\\b(Provisional\\s+)?No\\s*Objection\\s*Certificate\\b.*\\bFire\\b", fireB⟩
def PCB_RX : Rx :=
  ⟨"\\bPollution\\s+Control\\s+Board\\b|\\bConsent\\s+to\\s+(Establish|Operate)\\b|\\bCTE\\b|\\bCTO\\b", pcbB⟩
def AAI_RX : Rx :=
  ⟨"\\bAirports?\\s+Authority\\s+of\\s+India\\b|\\bAAI\\b.*\\bNOC\\b|\\bheight\\s+clearance\\b", aaiB⟩
def BWSSB_RX : Rx := ⟨"\\bBWSSB\\b|\\bWater\\s+Supply\\b|\\bWater\\s+Connection\\b", bwssbB⟩
def HMWS_RX : Rx := ⟨"\\bHMWS&SB\\b|\\bHyderabad\\s+Metropolitan\\s+Water\\b", hmwsB⟩
def BESCOM_RX : Rx := ⟨"\\bBESCOM\\b|\\bBangalore\\s+Electricity\\b", bescomB⟩
def BSNL_RX : Rx := ⟨"\\bBharat\\s+Sanchar\\s+Nigam\\s+Limited\\b|\\bBSNL\\b", bsnlB⟩
def EC_RX : Rx := ⟨"\\bEncumbrance\\s+Certificate\\b|\\bForm\\s+1[56]\\b", ecB⟩
def PAHANI_RX : Rx := ⟨"\\bPahani\\b|\\b1B\\b|\\bROR\\b|\\bAdangal\\b", pahaniB⟩
def PASSBOOK_RX : Rx := ⟨"\\bPassbook\\b", passbookB⟩
def DAGPA_RX : Rx := ⟨"\\bDevelopment\\s+Agreement[-\\s]*cum\\s+GPA\\b|\\bDAGPA\\b", dagpaB⟩
def JDA_RX : Rx := ⟨"\\bJoint\\s+Development\\s+Agreement\\b|\\bJDA\\b", jdaB⟩
def GPA_RX : Rx := ⟨"\\bGeneral\\s+Power\\s+of\\s+Attorney\\b|\\bGPA\\b", gpaB⟩
def NALA_RX : Rx := ⟨"\\bNALA\\b|\\bNon-?Agricultural\\s+Land\\s+Assessment\\b", nalaB⟩
def LUC_RX : Rx := ⟨"\\bLand\\s+Use\\s+Certificate\\b|\\bLUC\\b", lucB⟩
def TDR_RX : Rx := ⟨"\\bTransfer\\s+of\\s+Development\\s+Rights\\b|\\bTDR\\b", tdrB⟩
def PARTNERSHIP_DEED_RX : Rx :=
  ⟨"\\bPartnership\\s+Deed\\b|\\bFirm\\s+Registration\\b", partnershipDeedB⟩
def COMMENCEMENT_RX : Rx := ⟨"\\bCommencement\\s+(Certificate|Letter)\\b", commencementB⟩
def BANK_STMT_RX : Rx :=
  ⟨"\\b(Account\\s+Statement|Statement\\s+of\\s+Account|SOA|Account\\s+No\\.?|A/c\\s+No\\.?|IFSC)\\b", bankStmtB⟩
def COMPANY_MARKERS_RX : Rx := ⟨"\\b(Pvt\\.?|Private)\\s+Limited\\b|\\bLLP\\b|\\bLLPIN\\b|\\bCIN\\b|\\bCompany\\b|\\bInc\\b|\\bLtd\\b", companyMarkersB⟩
def CORP_HINTS_RX : Rx := COMPANY_MARKERS_RX

/-- The text-rule table of rules.py: slug to regex detector list, in the
source's dict order. -/
def TEXT_RULES : List (String × List Rx) :=
  [("directors_pan_aadhaar", [PAN_RX, AADHAAR_RX]),
   ("dev_company_gst_pan", [GSTIN_RX]),
   ("dev_company_tan", [TAN_RX]),
   ("dev_company_lei", [LEI_RX]),
   ("dev_company_moa_aoa_incorp", [MOA_RX, AOA_RX]),
   ("group_company_moa_aoa_incorp", [MOA_RX, AOA_RX]),
   ("dev_llp_agreement_incorp", [LLPIN_RX, COI_RX]),
   ("dev_partnership_deed_registration", [PARTNERSHIP_DEED_RX]),
   ("ts_hmda_dc_letter", [HMDA_RX, DC_RX]),
   ("ts_building_permit_order", [BPO_RX]),
   ("ts_provisional_fire_noc", [FIRE_RX]),
   ("ts_pollution_noc", [PCB_RX]),
   ("ts_airport_authority", [AAI_RX]),
   ("ts_rera_certificate", [RERA_RX]),
   ("ts_permission_water_supply", [HMWS_RX]),
   ("ka_commencement_letter", [COMMENCEMENT_RX]),
   ("ka_provisional_fire_noc", [FIRE_RX]),
   ("ka_pollution_noc", [PCB_RX]),
   ("ka_airport_authority", [AAI_RX]),
   ("ka_rera", [RERA_RX]),
   ("ka_permission_water_supply", [BWSSB_RX]),
   ("ka_bescom", [BESCOM_RX]),
   ("ka_bsnl", [BSNL_RX]),
   ("legal_certified_ec", [EC_RX]),
   ("legal_pahanies", [PAHANI_RX]),
   ("legal_passbooks", [PASSBOOK_RX]),
   ("land_ts_dagpa", [DAGPA_RX]),
   ("land_ka_jda", [JDA_RX]),
   ("land_ka_gpa", [GPA_RX]),
   ("land_ts_nala", [NALA_RX]),
   ("land_ts_land_use_certificate", [LUC_RX]),
   ("land_ts_tdr", [TDR_RX]),
   ("land_ka_tdr", [TDR_RX])]

/-- The filename-token to candidate-slug table of rules.py. -/
def FILENAME_HINTS (key : String) : List String :=
  match key with
  | "gst" => ["dev_company_gst_pan", "group_company_gst_pan", "dev_llp_gst_pan",
              "dev_partnership_gst_pan"]
  | "tan" => ["dev_company_tan", "dev_llp_tan", "dev_partnership_tan"]
  | "lei" => ["dev_company_lei", "dev_llp_lei", "dev_partnership_lei"]
  | "rera" => ["ts_rera_certificate", "ka_rera"]
  | "hmda" => ["ts_hmda_dc_letter"]
  | "aai" => ["ts_airport_authority", "ka_airport_authority"]
  | "moa" => ["dev_company_moa_aoa_incorp", "group_company_moa_aoa_incorp"]
  | "aoa" => ["dev_company_moa_aoa_incorp", "group_company_moa_aoa_incorp"]
  | "coi" => ["dev_llp_agreement_incorp"]
  | "accountstatement" => ["dev_company_bank_stmt", "dev_llp_bank_stmt",
                           "dev_partnership_bank_stmt", "directors_bank_stmt_1y"]
  | "statement" => ["dev_company_bank_stmt", "dev_llp_bank_stmt",
                    "dev_partnership_bank_stmt", "directors_bank_stmt_1y"]
  | _ => []

/-- A rule hit: (slug, score, human-readable reason). -/
abbrev Hit := String × ℚ × String

/-- The `min(0.95, score)` cap applied by `_add_hit`. -/
def addHitScore (score : ℚ) : ℚ := min (19/20) score

/-- The `pattern[:48] + ("..." if len(pattern) > 48 else "")` reason fragment. -/
def patTrunc (p : String) : String :=
  (p.take 48) ++ (if p.length > 48 then "..." else "")

/-- One step of the per-slug accumulation loop: the first matching detector
contributes 0.5, each later matching detector 0.25, and the matching
detector's pattern text is recorded as a reason. -/
def localScoreStep (text : String) (acc : ℚ × List String) (r : Rx) :
    ℚ × List String :=
  if r.search text then
    (acc.1 + (if acc.1 = 0 then 1/2 else 1/4), acc.2 ++ [patTrunc r.pattern])
  else acc

/-- Accumulated local score of a detector list against a text. -/
def localScore (regs : List Rx) (text : String) : ℚ :=
  (regs.foldl (localScoreStep text) (0, [])).1

/-- Per-slug candidate hit of the text-rule layer: emitted only when the
accumulated local score reaches 0.8, capped at 0.95 by `_add_hit`. -/
def entryHit (text : String) (e : String × List Rx) : Option Hit :=
  let res := e.2.foldl (localScoreStep text) (0, [])
  if res.1 ≥ 4/5 then
    some (e.1, addHitScore res.1, String.intercalate "; " res.2)
  else none

/-- The bank-statement router (`_bank_router` of rules.py); the state argument
is accepted and unused, as in the source. -/
def bankRouter (text : String) (_st : Option String) : List Hit :=
  if !BANK_STMT_RX.search text then []
  else if CORP_HINTS_RX.search text || gstinB text || cinB text || llpinB text then
    [("dev_company_bank_stmt", addHitScore (9/10), "bank statement + corporate markers"),
     ("dev_llp_bank_stmt", addHitScore (9/10), "bank statement + corporate markers"),
     ("dev_partnership_bank_stmt", addHitScore (9/10), "bank statement + corporate markers")]
  else
    [("directors_bank_stmt_1y", addHitScore (9/10), "bank statement + no corporate markers")]

/-- One-shot strip of the trailing file extension, as the anchored
`re.sub(r"\.(pdf|png|jpg|jpeg|tif|tiff|docx?)$", "", base)`; at most one of
the alternatives can match the end of the name. -/
def extAlts : List String := ["pdf", "png", "jpg", "jpeg", "tif", "tiff", "doc", "docx"]

def stripOneExt (s : String) : String :=
  match extAlts.find? (fun e => endsWithStr s ("." ++ e)) with
  | some e => s.dropRight (e.length + 1)
  | none => s

/-- The filename token map of rules.py (token and hint key coincide). -/
def tokenmap : List (String × String) :=
  [("gst", "gst"), ("tan", "tan"), ("lei", "lei"), ("rera", "rera"),
   ("hmda", "hmda"), ("aai", "aai"), ("moa", "moa"), ("aoa", "aoa"),
   ("coi", "coi"), ("accountstatement", "accountstatement"),
   ("statement", "statement")]

/-- The filename hard-hint layer: lower-cased, extension-stripped filename,
scanned for the distinctive tokens; each mapped slug gets a 0.85 hit. -/
def filenameHits (fname : String) : List Hit :=
  let base := stripOneExt (lowerStr fname)
  tokenmap.foldl
    (fun acc tk =>
      if containsSub base tk.1 then
        acc ++ (FILENAME_HINTS tk.2).map
          (fun slug => (slug, addHitScore (17/20), "filename:" ++ tk.1))
      else acc) []

/-- Function `rules_from_text_and_filename` of rules.py: text rules, then the bank
router, then the filename hints, pooled into one hit list. -/
def rules_from_text_and_filename (text fname : String) (st : Option String) :
    List Hit :=
  (TEXT_RULES.filterMap (entryHit text)) ++ bankRouter text st ++ filenameHits fname

/-- Python `max(hits, key=lambda x: x[1])`: the first hit of maximal score. -/
def maxHit : List Hit → Option Hit
  | [] => none
  | h :: t => some (t.foldl (fun best x => if best.2.1 < x.2.1 then x else best) h)

/-! The signal extractors of uploads_logic/signals.py. -/

/-- The category record of source_of_truth.py. -/
structure Category where
  slug : String
  display : String
  top_entity : String
  state_variant : Option String := none
  org_variant : Option String := none
  keywords : List String := []
  synonyms : List String := []
  prototype : String := ""
deriving DecidableEq

/-- A chunk row as returned by `get_chunks`: (chunk id, text, embedding). -/
abbrev Chunk := Nat × String × Option (List ℚ)

/-- Python `file_name.rsplit("/", 1)[-1]`. -/
def afterLastSlash (s : String) : String :=
  String.mk ((s.data.reverse.takeWhile (fun c => c ≠ '/')).reverse)

/-- The filename cleaning of `score_filename`: strip path, lower-case, strip
one known extension. -/
def cleanFname (file_name : String) : String :=
  stripOneExt (lowerStr (afterLastSlash file_name))

/-- Function `names_for_fuzzy` of source_of_truth.py: the lowered display name, the slug
with underscores as spaces, and the (already lower-cased) synonyms.  The
source wraps these in a Python set; deduplication and set order are immaterial
because the caller only takes a maximum over the collection. -/
def namesForFuzzy (c : Category) : List String :=
  [lowerStr c.display,
   lowerStr (String.mk (c.slug.data.map (fun ch => if ch = '_' then ' ' else ch)))]
    ++ c.synonyms

/-- Clip to the unit interval. -/
def clamp01 (x : ℚ) : ℚ := max 0 (min 1 x)

/-- Longest-common-subsequence row update (structural dynamic programming):
`diag`, `left` and the remaining previous row track the classic recurrence. -/
def lcsGo (c : Char) : Chars → List Nat → Nat → Nat → List Nat
  | [], _, _, _ => []
  | a :: as, prow, diag, left =>
    let up := prow.headD 0
    let cur := if a = c then diag + 1 else max left up
    cur :: lcsGo c as prow.tail up cur

def lcsRowNext (a : Chars) (row : List Nat) (c : Char) : List Nat :=
  lcsGo c a row 0 0

def lcsLen (a b : Chars) : Nat :=
  (b.foldl (lcsRowNext a) (List.replicate a.length 0)).getLastD 0

/-- Modelled from the spec: whole-string similarity (rapidfuzz `fuzz.QRatio` is
an external library; §4.1 asks for a whole-string fuzzy similarity scaled to
[0,1], realised here as the normalised indel similarity on a 0..100 scale). -/
def indelRatio (a b : Chars) : ℚ :=
  if a.length + b.length = 0 then 100
  else 100 * clamp01 ((2 * (lcsLen a b : ℚ)) / ((a.length : ℚ) + (b.length : ℚ)))

/-- Sliding windows of length `k` over a list (all contiguous runs of that
length). -/
def windowsFrom (k : Nat) : Chars → List Chars
  | [] => []
  | c :: cs =>
    (c :: cs).take k :: (if k < cs.length + 1 then windowsFrom k cs else [])

/-- Modelled from the spec: partial substring overlap (rapidfuzz
`fuzz.partial_ratio` is an external library; §4.1 asks for a partial substring
overlap metric, realised as the best whole-string similarity of the shorter
string against every equal-length window of the longer). -/
def partialRatio (a b : Chars) : ℚ :=
  let s := if a.length ≤ b.length then a else b
  let l := if a.length ≤ b.length then b else a
  if s.length = 0 then (if l.length = 0 then 100 else 0)
  else (windowsFrom s.length l).foldl (fun m w => max m (indelRatio s w)) 0

/-- Maximal alphanumeric runs of a character list (Python `\w+`-style word
tokens, as used both for token-set similarity and `is_generic_filename`). -/
def toksAux : Chars → Chars → List String
  | [], run => if run.length = 0 then [] else [String.mk run.reverse]
  | c :: cs, run =>
    if c.isAlphanum then toksAux cs (c :: run)
    else if run.length = 0 then toksAux cs []
    else String.mk run.reverse :: toksAux cs []

def toksOf (cs : Chars) : List String := toksAux cs []

/-- Modelled from the spec: token-set overlap (rapidfuzz `fuzz.token_set_ratio`
is an external library; §4.1 asks for a token-set overlap metric, realised as
the Jaccard similarity of the deduplicated token sets on a 0..100 scale). -/
def tokenSetRatio (a b : Chars) : ℚ :=
  let ta := (toksOf a).dedup
  let tb := (toksOf b).dedup
  if ta.length = 0 && tb.length = 0 then 100
  else if ta.length = 0 || tb.length = 0 then 0
  else
    let inter := (ta.filter (fun t => tb.contains t)).length
    let uni := ta.length + tb.length - inter
    100 * clamp01 ((inter : ℚ) / (uni : ℚ))

/-- Function `score_filename` of signals.py: best of the three fuzzy metrics over the
cleaned filename and every candidate name, divided by 100 into [0,1]. -/
def score_filename (file_name : String) (cat : Category) : ℚ :=
  let base := cleanFname file_name
  ((namesForFuzzy cat).foldl
    (fun best cand =>
      let s1 := tokenSetRatio base.data cand.data
      let s2 := partialRatio base.data cand.data
      let s3 := indelRatio base.data cand.data
      max (max (max best s1) s2) s3) 0) / 100

/-- Function `_norm01` of signals.py. -/
def norm01 (x lo hi : ℚ) : ℚ :=
  if hi ≤ lo then 0 else ((max lo (min hi x)) - lo) / (hi - lo)

/-- Function `score_keywords` of signals.py: proportion of keywords/synonyms contained
in the first `top_k` chunks' lowered text, normalised through [0, 0.6]. -/
def score_keywords (chunks : List Chunk) (cat : Category) (top_k : Nat) : ℚ :=
  let kws := cat.keywords ++ cat.synonyms
  if kws.length = 0 then 0
  else
    let text := lowerStr (String.intercalate " " ((chunks.take top_k).map (fun c => c.2.1)))
    let hits := (kws.filter (fun kw => kw.length ≠ 0 && containsSub text (lowerStr kw))).length
    norm01 ((hits : ℚ) / (max 1 (kws.length : ℚ))) 0 (3/5)

/-- Function `doc_vector_mean` of signals.py: arithmetic mean of the first `max_chunks`
chunks' non-empty embeddings (the numpy dtype branches collapse to the
presence test here; vectors are assumed rectangular as in the database). -/
def doc_vector_mean (chunks : List Chunk) (max_chunks : Nat) : Option (List ℚ) :=
  let vecs := (chunks.take max_chunks).filterMap
    (fun c =>
      match c.2.2 with
      | some v => if v.length = 0 then none else some v
      | none => none)
  match vecs with
  | [] => none
  | v :: vs =>
    some ((vs.foldl (fun x y => x.zipWith (fun p q => p + q) y) v).map
      (fun x => x / ((vs.length : ℚ) + 1)))

/-- Function `score_embeddings` of signals.py; the cosine itself involves floating-point
norms and square roots (numpy), so it is passed in as the numeric collaborator,
and its value is remapped through [0.2, 0.9]. -/
def score_embeddings (cosine : List ℚ → List ℚ → ℚ)
    (doc_vec cat_vec : Option (List ℚ)) : ℚ :=
  match doc_vec, cat_vec with
  | some a, some b => norm01 (cosine a b) (1/5) (9/10)
  | _, _ => 0

/-- Table `GENERIC_TOKENS` of signals.py. -/
def GENERIC_TOKENS : List String :=
  ["scan", "scanned", "document", "doc", "file", "new", "untitled", "image",
   "img", "photo"]

/-- Function `is_generic_filename` of signals.py.  The source's final test is
`digits / max(1, len(base)) > 0.6`; with the positive denominator it is
cross-multiplied here to `5 * digits > 3 * max(1, len(base))` so that the
test stays kernel-computable (see `is_generic_digit_ratio`). -/
def is_generic_filename (name : String) : Bool :=
  let base := stripOneExt (lowerStr (afterLastSlash name))
  let toks := (toksOf base.data).dedup
  if toks.length = 0 then true
  else if toks.any (fun t => GENERIC_TOKENS.contains t) then true
  else if base.length ≤ 6 then true
  else 3 * max 1 base.length < 5 * (base.data.filter Char.isDigit).length

/-- The cross-multiplied digit-ratio test agrees with the source's rational
comparison `digits / max(1, len) > 3/5`. -/
theorem is_generic_digit_ratio (digits len : Nat) :
    (3 * max 1 len < 5 * digits) ↔
      ((digits : ℚ) / (max 1 (len : ℚ)) > 3/5) := by
  have hmax : (max 1 (len : ℚ)) = ((max 1 len : Nat) : ℚ) := by
    rcases le_total 1 len with hl | hl
    · rw [max_eq_right hl, max_eq_right (by exact_mod_cast hl)]
    · rw [max_eq_left hl, max_eq_left (by exact_mod_cast hl)]
      norm_num
  have hpos : (0 : ℚ) < max 1 (len : ℚ) := lt_max_of_lt_left one_pos
  rw [gt_iff_lt, lt_div_iff hpos, hmax]
  constructor
  · intro h
    have hq : ((3 * max 1 len : Nat) : ℚ) < ((5 * digits : Nat) : ℚ) := by
      exact_mod_cast h
    push_cast at hq ⊢
    linarith
  · intro h
    have hq : ((3 * max 1 len : Nat) : ℚ) < ((5 * digits : Nat) : ℚ) := by
      push_cast
      linarith
    exact_mod_cast hq

/-- Function `fuse_scores` of fuse.py: clipped weighted sum (the resolver always passes
the weights explicitly; the source's unused default is (0.20, 0.35, 0.45)). -/
def fuse_scores (s1 s2 s3 : ℚ) (w : ℚ × ℚ × ℚ) : ℚ :=
  max 0 (min 1 (w.1 * s1 + w.2.1 * s2 + w.2.2 * s3))

/-! The categorisation orchestrator of rishabh_code/uploads_logic/resolver.py. -/

/-- Stable insertion into a descending-sorted list: the element goes before the
first entry it is greater-or-equal to, exactly where Python's stable
`sort(reverse=True)` keeps an earlier element relative to equal keys. -/
def insertByGe (ge : α → α → Bool) (x : α) : List α → List α
  | [] => [x]
  | y :: ys => if ge x y then x :: y :: ys else y :: insertByGe ge x ys

/-- Stable descending sort (Python `list.sort(key=..., reverse=True)`). -/
def sortByGe (ge : α → α → Bool) (l : List α) : List α :=
  l.foldr (insertByGe ge) []

/-- A fused candidate row of the resolver's `scored` list. -/
structure Scored where
  slug : String
  score : ℚ
  parts : ℚ × ℚ × ℚ
  cat : Category
deriving DecidableEq

def geScore (a b : Scored) : Bool := b.score ≤ a.score

/-- A dict lookup with default (Python `d.get(k, d0)`). -/
def lookupD (l : List (String × Nat)) (k : String) (d0 : Nat) : Nat :=
  match l.find? (fun p => p.1 == k) with
  | some p => p.2
  | none => d0

/-- Association lookup for the category prototype vectors (`cat_vecs.get(slug)`). -/
def lookupVec (l : List (String × List ℚ)) (k : String) : Option (List ℚ) :=
  (l.find? (fun p => p.1 == k)).map (fun p => p.2)

/-- The rule text window: the first 12 chunks, cut once the accumulated length
passes 20000 characters (the crossing chunk is still included, as in the
source's append-then-break loop), joined with newlines. -/
def windowAux : List Chunk → Nat → List String
  | [], _ => []
  | (_, t, _) :: rest, tot =>
    t :: (if tot + t.length > 20000 then [] else windowAux rest (tot + t.length))

def docWindow (chunks : List Chunk) : String :=
  String.intercalate "\n" (windowAux (chunks.take 12) 0)

/-- The dynamic filename weight of the resolver: 0 for a generic or heavily
duplicated name, 0.20 at exactly two duplicates, full 0.40 otherwise. -/
def weight1 (generic : Bool) (dup_count : Nat) : ℚ :=
  if generic || dup_count ≥ 3 then 0
  else if dup_count = 2 then 1/5
  else 2/5

/-- The applied-rule record of the decision. -/
structure RuleApplied where
  slug : String
  score : ℚ
  reason : String
deriving DecidableEq

/-- The rule override step of `categorize_document`: if the best rule hit's
slug is among the scored candidates, force it as winner and raise the final
score to `max(final, r_score)`; otherwise keep the fused winner and raise the
final score to `max(final, 0.9 * r_score)`, recording a partial application. -/
def applyRule (scored : List Scored) (rb : Option Hit) (top : Scored) :
    String × ℚ × Category × Option RuleApplied :=
  match rb with
  | none => (top.slug, top.score, top.cat, none)
  | some (r_slug, r_score, reason) =>
    match scored.find? (fun e => e.slug == r_slug) with
    | some e =>
      (r_slug, max top.score r_score, e.cat, some ⟨r_slug, r_score, reason⟩)
    | none =>
      (top.slug, max top.score (r_score * (9/10)), top.cat,
       some ⟨r_slug, r_score * (9/10), reason ++ " (partial)"⟩)

/-- The status thresholds of the resolver. -/
def statusOf (final : ℚ) : String :=
  if final ≥ 7/10 then "accepted"
  else if final ≥ 3/5 then "needs_review"
  else "unassigned"

/-- The classification decision record returned by `categorize_document`
(the source additionally rounds the rational fields to three decimals for
display; that presentation rounding is omitted here — the status and all
comparisons are computed on the unrounded values in the source too). -/
structure CatResult where
  doc_id : Nat
  document_name : String
  best_slug : String
  best_display : String
  top_entity : String
  state_variant : Option String
  org_variant : Option String
  final : ℚ
  s1 : ℚ
  s2 : ℚ
  s3 : ℚ
  status : String
  scoredList : List Scored
  rule : Option RuleApplied
  weights : ℚ × ℚ × ℚ
  is_dup_name : Bool
  name_dup_count : Nat
  is_generic_name : Bool
deriving DecidableEq

/-- The duplicate-filename counter lookup (`fname_cnts.get(fname.lower(), 0)`). -/
def dupCountOf (fname_cnts : List (String × Nat)) (fname : String) : Nat :=
  lookupD fname_cnts (lowerStr fname) 0

/-- The dynamic fusion weight triple of `categorize_document`. -/
def weightsOf (fname : String) (fname_cnts : List (String × Nat)) : ℚ × ℚ × ℚ :=
  (weight1 (is_generic_filename fname) (dupCountOf fname_cnts fname), 3/10, 3/10)

/-- One fused candidate row: the three signal scores and their weighted fusion. -/
def fusedFor (chunks : List Chunk) (cosine : List ℚ → List ℚ → ℚ) (fname : String)
    (cat_vecs : List (String × List ℚ)) (weights : ℚ × ℚ × ℚ) (c : Category) :
    Scored :=
  let s1 := score_filename fname c
  let s2 := score_keywords chunks c 6
  let s3 := score_embeddings cosine (doc_vector_mean chunks 8) (lookupVec cat_vecs c.slug)
  ⟨c.slug, fuse_scores s1 s2 s3 weights, (s1, s2, s3), c⟩

/-- The `scored` list of `categorize_document` after its stable descending sort. -/
def sortedCands (chunks : List Chunk) (cosine : List ℚ → List ℚ → ℚ)
    (fname : String) (cats : List Category) (cat_vecs : List (String × List ℚ))
    (weights : ℚ × ℚ × ℚ) : List Scored :=
  sortByGe geScore (cats.map (fusedFor chunks cosine fname cat_vecs weights))

/-- The best rule hit of a document (`max(rule_hits, key=...)` over the pooled
hits of the rule engine on the document's text window and filename). -/
def ruleBestOf (chunks : List Chunk) (fname : String) (st : Option String) :
    Option Hit :=
  maxHit (rules_from_text_and_filename (docWindow chunks) fname st)

/-- Assembly of the decision record from the sorted candidates and the rule
override. -/
def assembleResult (doc_id : Nat) (fname : String) (scored : List Scored)
    (top : Scored) (rb : Option Hit) (weights : ℚ × ℚ × ℚ) (dup_count : Nat)
    (generic : Bool) : CatResult :=
  let r := applyRule scored rb top
  { doc_id := doc_id
    document_name := fname
    best_slug := r.1
    best_display := r.2.2.1.display
    top_entity := r.2.2.1.top_entity
    state_variant := r.2.2.1.state_variant
    org_variant := r.2.2.1.org_variant
    final := r.2.1
    s1 := top.parts.1
    s2 := top.parts.2.1
    s3 := top.parts.2.2
    status := statusOf r.2.1
    scoredList := scored
    rule := r.2.2.2
    weights := weights
    is_dup_name := dup_count ≥ 2
    name_dup_count := dup_count
    is_generic_name := generic }

/-- Function `categorize_document` of resolver.py.  The chunk rows (the `get_chunks`
database call) and the numpy cosine are passed in as collaborator parameters;
`none` models the `scored[0]` IndexError on an empty candidate list. -/
def categorize_document (chunks : List Chunk) (cosine : List ℚ → List ℚ → ℚ)
    (doc_id : Nat) (fname : String) (cats : List Category)
    (cat_vecs : List (String × List ℚ)) (fname_cnts : List (String × Nat))
    (state_variant : Option String) : Option CatResult :=
  let rule_best := ruleBestOf chunks fname state_variant
  let dup_count := dupCountOf fname_cnts fname
  let generic := is_generic_filename fname
  let weights := weightsOf fname fname_cnts
  match sortedCands chunks cosine fname cats cat_vecs weights with
  | [] => none
  | top :: rest =>
    some (assembleResult doc_id fname (top :: rest) top rule_best weights dup_count generic)

/-! Entity identity and role clustering of entity_role_infer.py. -/

/-- Replace every (non-overlapping, left-to-right) occurrence of a token by
nothing, as Python `s.replace(token, "")`; fuel-structured so the kernel can
evaluate it. -/
def replAllAux (tok : Chars) : Nat → Chars → Chars
  | 0, cs => cs
  | _ + 1, [] => []
  | fuel + 1, c :: cs =>
    if startsList tok (c :: cs) then replAllAux tok fuel ((c :: cs).drop tok.length)
    else c :: replAllAux tok fuel cs

def replaceAll (s tok : String) : String :=
  String.mk (replAllAux tok.data (s.data.length + 1) s.data)

/-- Maximal runs of non-whitespace characters (used to collapse whitespace and
strip, as `re.sub(r"\s+", " ", s).strip()` followed by a single-space join). -/
def nonWsAux : Chars → Chars → List String
  | [], run => if run.length = 0 then [] else [String.mk run.reverse]
  | c :: cs, run =>
    if !isWsChar c then nonWsAux cs (c :: run)
    else if run.length = 0 then nonWsAux cs []
    else String.mk run.reverse :: nonWsAux cs []

def nonWsRuns (cs : Chars) : List String := nonWsAux cs []

/-- The corporate-suffix tokens stripped by `norm_name`, in source order. -/
def NORM_TOKENS : List String :=
  [" PRIVATE LIMITED", " PVT LTD", " LTD", " LIMITED", " LLP",
   " PARTNERSHIP FIRM", " FIRM", " COMPANY"]

/-- Function `norm_name` of entity_role_infer.py: upper-case, strip corporate suffixes,
map characters outside `[A-Z0-9& ]` to spaces, collapse whitespace, strip.
(The source first turns each run of excluded characters into one space and
then collapses whitespace runs; mapping each excluded character to a space
commutes with the final collapse.) -/
def norm_name (s : String) : String :=
  let u := upperStr s
  let r := NORM_TOKENS.foldl replaceAll u
  let m := r.data.map
    (fun c => if c.isUpper || c.isDigit || c = '&' || c = ' ' then c else ' ')
  String.intercalate " " (nonWsRuns m)

/-- The identifier facts of one document (`extract_facts` result dict). -/
structure Facts where
  pan : Option String := none
  gstin : Option String := none
  cin : Option String := none
  llpin : Option String := none
  name : Option String := none
  name_key : Option String := none
deriving DecidableEq

/-- Function `extract_facts` of entity_role_infer.py: leftmost regex matches for
PAN/GSTIN/CIN/LLPIN and a labeled name; when a GSTIN is present and no PAN
was matched directly, the PAN is derived from GSTIN characters 3..12. -/
def extract_facts (text : String) : Facts :=
  let pan0 := panSearch text
  let gstin := gstinSearch text
  let cin := cinSearch text
  let llpin := llpinSearch text
  let nm := (nameSearch text).map trimStr
  let pan :=
    match pan0, gstin with
    | none, some g =>
      if g.length ≥ 12 then some (String.mk ((g.data.drop 2).take 10)) else none
    | p, _ => p
  { pan := pan, gstin := gstin, cin := cin, llpin := llpin, name := nm,
    name_key := nm.map norm_name }

/-- Python truthiness gate of the key loop: an entry participates only when it
is present and non-empty, and the emitted key is `f"{k}:{f[k]}"`. -/
def keyOf (tag : String) (v : Option String) : Option String :=
  match v with
  | some s => if s.length ≠ 0 then some (tag ++ ":" ++ s) else none
  | none => none

/-- Function `entity_key` of entity_role_infer.py: the first non-empty of PAN, GSTIN,
LLPIN, CIN, normalized name, strongest first. -/
def entity_key (f : Facts) : Option String :=
  (keyOf "pan" f.pan).orElse fun _ =>
    (keyOf "gstin" f.gstin).orElse fun _ =>
      (keyOf "llpin" f.llpin).orElse fun _ =>
        (keyOf "cin" f.cin).orElse fun _ => keyOf "name_key" f.name_key

def DEV_STRONG : List String :=
  ["tan", "msme", "lei", "sanction_soa", "cibil", "bank_stmt_entity"]

def DEV_COMMON : List String :=
  ["gst_pan", "financials_3y", "itrs_3y", "coi_moa_aoa", "partnership_deed",
   "llp_agreement"]

/-- Function `feature_from_slug` of entity_role_infer.py. -/
def feature_from_slug (slug : String) : Option String :=
  let s := lowerStr slug
  if containsSub s "tan" then some "tan"
  else if containsSub s "msme" then some "msme"
  else if containsSub s "lei" then some "lei"
  else if containsSub s "sanction" || containsSub s "soa" then some "sanction_soa"
  else if containsSub s "cibil" then some "cibil"
  else if containsSub s "bank_stmt" && !containsSub s "directors" then
    some "bank_stmt_entity"
  else if containsSub s "gst_pan" then some "gst_pan"
  else if containsSub s "financial" then some "financials_3y"
  else if containsSub s "itrs" then some "itrs_3y"
  else if containsSub s "moa_aoa" || containsSub s "incorp" then some "coi_moa_aoa"
  else if containsSub s "partnership_deed" then some "partnership_deed"
  else if containsSub s "llp_agreement" then some "llp_agreement"
  else none

/-- Function `org_variant_from_slugs` of entity_role_infer.py. -/
def org_variant_from_slugs (slugs : List String) : String :=
  let s := String.intercalate " " slugs
  if containsSub s "llp_agreement" || containsSub s " llp " then "llp"
  else if containsSub s "partnership_deed" || containsSub s "partnership" then
    "partnership"
  else if containsSub s "moa_aoa" || containsSub s "incorp" || containsSub s "coi" then
    "company"
  else "company"

/-- Counter increment preserving first-appearance order, as Python `Counter`. -/
def incCount : List (String × Nat) → String → List (String × Nat)
  | [], k => [(k, 1)]
  | (a, n) :: rest, k =>
    if a = k then (a, n + 1) :: rest else (a, n) :: incCount rest k

/-- Function `score_role` of entity_role_infer.py: strong features weigh 2 towards the
developer score, common ones 1; the group score counts common features only. -/
def score_role (features : List (String × Nat)) : Nat × Nat :=
  (features.foldl
    (fun acc fc =>
      if DEV_STRONG.contains fc.1 then acc + 2 * fc.2
      else if DEV_COMMON.contains fc.1 then acc + fc.2
      else acc) 0,
   features.foldl
    (fun acc fc => if DEV_COMMON.contains fc.1 then acc + fc.2 else acc) 0)

/-- A document row as returned by `get_documents`. -/
structure DocRow where
  id : Nat
  document_name : String := ""
  canonical_slug : Option String := none
  top_entity : Option String := none
  org_variant : Option String := none
  state_variant : Option String := none
  confidence : Option ℚ := none
  status : Option String := none
deriving DecidableEq

/-- One entity cluster (`clusters[key]` dict of the source). -/
structure Cluster where
  docs : List DocRow
  slugs : List String
  features : List (String × Nat)
  facts : Facts
deriving DecidableEq

/-- The storage collaborator snapshot for a role-inference run: all document
rows and each document's chunk rows. -/
structure RoleEnv where
  docs : List DocRow
  chunksOf : Nat → List Chunk

/-- The small per-document text window of `run`: first 3 chunks, joined. -/
def docTextOf (env : RoleEnv) (row : DocRow) : String :=
  String.intercalate "\n" (((env.chunksOf row.id).take 3).map (fun c => c.2.1))

def docSlugOf (row : DocRow) : String := lowerStr (row.canonical_slug.getD "")

/-- Append one document to a cluster, recording its slug and mapped feature. -/
def addToCluster (c : Cluster) (row : DocRow) (slug : String) : Cluster :=
  { c with
    docs := c.docs ++ [row]
    slugs := c.slugs ++ [slug]
    features :=
      match feature_from_slug slug with
      | some f => incCount c.features f
      | none => c.features }

/-- Python `clusters.setdefault(key, …)` followed by the appends: update the
existing cluster in place, or append a fresh one (keyed insertion order). -/
def addDoc (key : String) (row : DocRow) (slug : String) (facts : Facts) :
    List (String × Cluster) → List (String × Cluster)
  | [] => [(key, addToCluster ⟨[], [], [], facts⟩ row slug)]
  | (k, c) :: rest =>
    if k = key then (k, addToCluster c row slug) :: rest
    else (k, c) :: addDoc key row slug facts rest

/-- The clustering loop of `run`: documents without an entity key are skipped. -/
def runClusters (env : RoleEnv) : List (String × Cluster) :=
  env.docs.foldl
    (fun acc row =>
      let facts := extract_facts (docTextOf env row)
      match entity_key facts with
      | none => acc
      | some key => addDoc key row (docSlugOf row) facts acc) []

/-- One scored cluster row `(key, dev_score, group_score, variant, cluster)`. -/
structure CScored where
  key : String
  dev : Nat
  grp : Nat
  variant : String
  cluster : Cluster
deriving DecidableEq

/-- Descending lexicographic comparison on the `(dev, grp)` composite key
(Python `sort(key=lambda x: (x[1], x[2]), reverse=True)`). -/
def geCScored (a b : CScored) : Bool :=
  b.dev < a.dev || (a.dev = b.dev && b.grp ≤ a.grp)

/-- The scored-and-sorted cluster list of `run`. -/
def runScored (env : RoleEnv) : List CScored :=
  sortByGe geCScored
    ((runClusters env).map (fun kc =>
      ⟨kc.1, (score_role kc.2.features).1, (score_role kc.2.features).2,
       org_variant_from_slugs kc.2.slugs, kc.2⟩))

/-- Role for a cluster key: the top-sorted key is the developer entity, the
second (falling back to the first when there is only one cluster) the group
entity, anything else an other entity. -/
def roleFor (scored : List CScored) (key : String) : String :=
  match scored with
  | [] => "other_entity"
  | d :: rest =>
    let grp_key := match rest with | [] => d.key | g :: _ => g.key
    if key = d.key then "developer_entity"
    else if key = grp_key then "group_entity"
    else "other_entity"

/-- One `update_match` storage write. -/
structure UpdateCall where
  doc_id : Nat
  slug : Option String
  top_entity : Option String
  org_variant : Option String
  state_variant : Option String
  confidence : Option ℚ
  status : String
deriving DecidableEq

/-- Python `row.get("status") or "unassigned"` (empty string is falsy). -/
def statusOr (s : Option String) : String :=
  match s with
  | some v => if v.length ≠ 0 then v else "unassigned"
  | none => "unassigned"

/-- The write-back loop of `run`: one `update_match` per document of every
cluster, carrying the cluster's role and organisation variant. -/
def writesFor (scored : List CScored) : List UpdateCall :=
  (scored.map (fun e =>
    e.cluster.docs.map (fun row =>
      { doc_id := row.id
        slug := row.canonical_slug
        top_entity := some (roleFor scored e.key)
        org_variant := some e.variant
        state_variant := row.state_variant
        confidence := row.confidence
        status := statusOr row.status : UpdateCall }))).flatten

/-- Function `run` of entity_role_infer.py, as the list of storage writes it performs.
Both the state and the apply arguments are accepted and never consulted,
exactly as in the source (`apply` does not appear in the function body). -/
def entityRun (env : RoleEnv) (_state : String) (_apply : Bool) : List UpdateCall :=
  if (runClusters env).isEmpty then [] else writesFor (runScored env)

/-! Helper lemmas about the rule engine's local-score accumulation. -/

/-- Number of detectors of a list that match a text. -/
def matchCount (regs : List Rx) (text : String) : Nat :=
  (regs.filter (fun r => r.search text)).length

theorem matchCount_nil (text : String) : matchCount [] text = 0 := rfl

theorem matchCount_cons (r : Rx) (regs : List Rx) (text : String) :
    matchCount (r :: regs) text =
      if r.search text then matchCount regs text + 1 else matchCount regs text := by
  simp only [matchCount, List.filter_cons]
  split <;> simp

theorem localScore_fold_pos (text : String) (regs : List Rx) :
    ∀ (a : ℚ) (rs : List String), 0 < a →
      (regs.foldl (localScoreStep text) (a, rs)).1 = a + (matchCount regs text : ℚ) / 4 := by
  induction regs with
  | nil => intro a rs _; simp [matchCount]
  | cons r rest ih =>
    intro a rs ha
    rw [matchCount_cons]
    simp only [List.foldl_cons, localScoreStep]
    cases hs : r.search text
    · simp only [hs, Bool.false_eq_true, if_false]
      rw [ih a rs ha]
    · simp only [hs, if_true, ha.ne', if_false]
      rw [ih (a + 1/4) _ (by linarith)]
      push_cast
      ring

/-- The diminishing-returns accumulation of the text-rule layer in closed form:
no match gives 0, `k ≥ 1` matches give `0.5 + 0.25 * (k - 1)`. -/
theorem localScore_formula (regs : List Rx) (text : String) :
    localScore regs text =
      if matchCount regs text = 0 then 0
      else 1/2 + ((matchCount regs text - 1 : Nat) : ℚ) / 4 := by
  induction regs with
  | nil => simp [localScore, matchCount]
  | cons r rest ih =>
    rw [matchCount_cons]
    cases hs : r.search text
    · simp only [localScore, List.foldl_cons, localScoreStep, hs, Bool.false_eq_true,
        if_false] at *
      exact ih
    · simp only [localScore, List.foldl_cons, localScoreStep, hs, if_true]
      norm_num
      rw [localScore_fold_pos text rest (1/2) _ (by norm_num)]

theorem matchCount_le (regs : List Rx) (text : String) :
    matchCount regs text ≤ regs.length :=
  List.length_filter_le _ _

/-- With at most two detectors the local score cannot exceed 0.75. -/
theorem localScore_le_of_len_le_two (regs : List Rx) (text : String)
    (h : regs.length ≤ 2) : localScore regs text ≤ 3/4 := by
  have hk : matchCount regs text ≤ 2 := le_trans (matchCount_le regs text) h
  rw [localScore_formula]
  split
  · norm_num
  · rename_i hne
    have h1 : 1 ≤ matchCount regs text := Nat.one_le_iff_ne_zero.mpr hne
    have : ((matchCount regs text - 1 : Nat) : ℚ) ≤ 1 := by
      have : matchCount regs text - 1 ≤ 1 := by omega
      exact_mod_cast this
    linarith

/-- A slug whose detector list has at most two entries can never be emitted. -/
theorem entryHit_eq_none_of_len_le_two (text : String) (e : String × List Rx)
    (h : e.2.length ≤ 2) : entryHit text e = none := by
  have hle : localScore e.2 text ≤ 3/4 := localScore_le_of_len_le_two e.2 text h
  unfold entryHit
  have : ¬ ((e.2.foldl (localScoreStep text) (0, [])).1 ≥ 4/5) := by
    intro hge
    have : localScore e.2 text ≥ 4/5 := hge
    linarith
  simp only [this, if_false]

/-- Every shipped text rule has at most two detectors. -/
theorem TEXT_RULES_len_le_two : ∀ e ∈ TEXT_RULES, e.2.length ≤ 2 := by
  intro e he
  fin_cases he <;> simp [TEXT_RULES]

/-- The text-rule layer of the shipped table never emits a hit. -/
theorem textRules_silent (text : String) :
    TEXT_RULES.filterMap (entryHit text) = [] := by
  rw [List.filterMap_eq_nil_iff]
  intro e he
  exact entryHit_eq_none_of_len_le_two text e (TEXT_RULES_len_le_two e he)

/-! Helper lemmas about the stable descending sort. -/

theorem insertByGe_perm (ge : α → α → Bool) (x : α) (l : List α) :
    (insertByGe ge x l).Perm (x :: l) := by
  induction l with
  | nil => exact List.Perm.refl _
  | cons y ys ih =>
    unfold insertByGe
    split
    · exact List.Perm.refl _
    · exact (List.Perm.cons y ih).trans (List.Perm.swap x y ys)

theorem sortByGe_perm (ge : α → α → Bool) (l : List α) :
    (sortByGe ge l).Perm l := by
  induction l with
  | nil => exact List.Perm.refl _
  | cons y ys ih =>
    exact (insertByGe_perm ge y (sortByGe ge ys)).trans (List.Perm.cons y ih)

theorem mem_sortByGe (ge : α → α → Bool) (l : List α) (a : α) :
    a ∈ sortByGe ge l ↔ a ∈ l :=
  (sortByGe_perm ge l).mem_iff

theorem sortByGe_eq_nil_iff (ge : α → α → Bool) (l : List α) :
    sortByGe ge l = [] ↔ l = [] := by
  constructor
  · intro h
    have := (sortByGe_perm ge l).length_eq
    rw [h] at this
    exact List.length_eq_zero.mp this.symm
  · intro h; subst h; rfl

theorem insertByGe_chain (ge : α → α → Bool)
    (htot : ∀ a b, ge a b || ge b a) (x : α) (l : List α)
    (hl : List.Chain' (fun a b => ge a b = true) l) :
    List.Chain' (fun a b => ge a b = true) (insertByGe ge x l) := by
  induction l with
  | nil => simp [insertByGe]
  | cons y ys ih =>
    unfold insertByGe
    split
    · rename_i hge
      exact List.Chain'.cons hge hl
    · rename_i hnge
      have hyx : ge y x = true := by
        rcases Bool.or_eq_true_iff.mp (htot x y) with h | h
        · exact absurd h hnge
        · exact h
      have hys : List.Chain' (fun a b => ge a b = true) ys := hl.tail
      have hins := ih hys
      cases hys' : insertByGe ge x ys with
      | nil => simp [List.chain'_cons]
      | cons z zs =>
        rw [hys'] at hins
        refine List.Chain'.cons ?_ hins
        have hz : z ∈ insertByGe ge x ys := by rw [hys']; exact List.mem_cons_self z zs
        have hz' : z = x ∨ z ∈ ys := by
          have := (insertByGe_perm ge x ys).mem_iff.mp hz
          simpa using this
        rcases hz' with rfl | hzys
        · exact hyx
        · cases ys with
          | nil => cases hzys
          | cons w ws =>
            have hhead : z = w ∨ z ∈ ws := by simpa using hzys
            rcases hhead with rfl | hzws
            · exact (List.chain'_cons.mp hl).1
            · -- z is a later element of ys; but insertByGe only moves x to the
              -- front of a suffix, so the head of the result is x or ys's head.
              -- Fall back on the structure of insertByGe for the cons case.
              have : insertByGe ge x (w :: ws) =
                  if ge x w then x :: w :: ws else w :: insertByGe ge x ws := rfl
              rw [this] at hys'
              by_cases hxw : ge x w = true
              · rw [if_pos hxw] at hys'
                have : z = x := (List.cons_eq_cons.mp hys').1.symm
                subst this
                exact hyx
              · rw [if_neg hxw] at hys'
                have : z = w := (List.cons_eq_cons.mp hys').1.symm
                subst this
                exact (List.chain'_cons.mp hl).1

theorem sortByGe_chain (ge : α → α → Bool)
    (htot : ∀ a b, ge a b || ge b a) (l : List α) :
    List.Chain' (fun a b => ge a b = true) (sortByGe ge l) := by
  induction l with
  | nil => simp [sortByGe]
  | cons y ys ih => exact insertByGe_chain ge htot y (sortByGe ge ys) ih

/-! Helper lemmas about hit scores of the two live rule layers. -/

theorem addHitScore_le (s : ℚ) : addHitScore s ≤ 19/20 := min_le_left _ _

theorem bankRouter_scores (text : String) (st : Option String) :
    ∀ h ∈ bankRouter text st, h.2.1 = 9/10 := by
  intro h hh
  unfold bankRouter at hh
  split at hh
  · cases hh
  · split at hh <;>
      (simp only [List.mem_cons, List.mem_singleton, List.not_mem_nil, or_false] at hh <;>
        rcases hh with rfl | rfl | rfl <;> norm_num [addHitScore])

theorem filenameHits_fold_scores (tms : List (String × String)) (base : String)
    (acc : List Hit) (hacc : ∀ h ∈ acc, h.2.1 = 17/20) :
    ∀ h ∈ tms.foldl
      (fun acc tk =>
        if containsSub base tk.1 then
          acc ++ (FILENAME_HINTS tk.2).map
            (fun slug => (slug, addHitScore (17/20), "filename:" ++ tk.1))
        else acc) acc, h.2.1 = 17/20 := by
  induction tms generalizing acc with
  | nil => exact hacc
  | cons tk rest ih =>
    intro h hh
    simp only [List.foldl_cons] at hh
    refine ih _ ?_ h hh
    intro h' hh'
    split at hh'
    · rcases List.mem_append.mp hh' with hl | hr
      · exact hacc h' hl
      · rcases List.mem_map.mp hr with ⟨slug, _, rfl⟩
        norm_num [addHitScore]
    · exact hacc h' hh'

theorem filenameHits_scores (fname : String) :
    ∀ h ∈ filenameHits fname, h.2.1 = 17/20 := by
  intro h hh
  exact filenameHits_fold_scores tokenmap (stripOneExt (lowerStr fname)) [] (by simp) h hh

/-! Helper lemmas about the first-maximum selection (`max(hits, key=...)`). -/

theorem maxHit_fold_mem (t : List Hit) :
    ∀ h : Hit, (t.foldl (fun best x => if best.2.1 < x.2.1 then x else best) h) = h ∨
      (t.foldl (fun best x => if best.2.1 < x.2.1 then x else best) h) ∈ t := by
  induction t with
  | nil => intro h; left; rfl
  | cons x xs ih =>
    intro h
    simp only [List.foldl_cons]
    rcases ih (if h.2.1 < x.2.1 then x else h) with heq | hmem
    · rw [heq]
      split
      · right; exact List.mem_cons_self x xs
      · left; rfl
    · right; exact List.mem_cons_of_mem x hmem

theorem maxHit_mem (hits : List Hit) (rb : Hit) (h : maxHit hits = some rb) :
    rb ∈ hits := by
  cases hits with
  | nil => cases h
  | cons x xs =>
    simp only [maxHit, Option.some_inj] at h
    rcases maxHit_fold_mem xs x with heq | hmem
    · rw [heq] at h; rw [← h]; exact List.mem_cons_self x xs
    · rw [← h]; exact List.mem_cons_of_mem x hmem

theorem maxHit_fold_ge (t : List Hit) :
    ∀ h : Hit,
      h.2.1 ≤ (t.foldl (fun best x => if best.2.1 < x.2.1 then x else best) h).2.1 ∧
      ∀ x ∈ t, x.2.1 ≤ (t.foldl (fun best x => if best.2.1 < x.2.1 then x else best) h).2.1 := by
  induction t with
  | nil => intro h; exact ⟨le_refl _, by simp⟩
  | cons x xs ih =>
    intro h
    simp only [List.foldl_cons]
    obtain ⟨hself, hall⟩ := ih (if h.2.1 < x.2.1 then x else h)
    constructor
    · refine le_trans ?_ hself
      split
      · rename_i hlt; exact le_of_lt hlt
      · exact le_refl _
    · intro y hy
      rcases List.mem_cons.mp hy with rfl | hmem
      · refine le_trans ?_ hself
        split
        · exact le_refl _
        · rename_i hnlt; exact le_of_not_lt hnlt
      · exact hall y hmem

theorem maxHit_ge (hits : List Hit) (rb : Hit) (h : maxHit hits = some rb) :
    ∀ x ∈ hits, x.2.1 ≤ rb.2.1 := by
  cases hits with
  | nil => cases h
  | cons x xs =>
    simp only [maxHit, Option.some_inj] at h
    intro y hy
    obtain ⟨hself, hall⟩ := maxHit_fold_ge xs x
    rcases List.mem_cons.mp hy with rfl | hmem
    · rw [← h]; exact hself
    · rw [← h]; exact hall y hmem

theorem maxHit_isSome (hits : List Hit) (h : hits ≠ []) :
    ∃ rb, maxHit hits = some rb := by
  cases hits with
  | nil => exact absurd rfl h
  | cons x xs => exact ⟨_, rfl⟩

/-! Helper lemmas about the fused candidate rows and the decision assembly. -/

theorem fuse_scores_nonneg (s1 s2 s3 : ℚ) (w : ℚ × ℚ × ℚ) :
    0 ≤ fuse_scores s1 s2 s3 w := le_max_left _ _

theorem fuse_scores_le_one (s1 s2 s3 : ℚ) (w : ℚ × ℚ × ℚ) :
    fuse_scores s1 s2 s3 w ≤ 1 :=
  max_le (by norm_num) (min_le_left _ _)

theorem sortedCands_score_bounds (chunks : List Chunk)
    (cosine : List ℚ → List ℚ → ℚ) (fname : String) (cats : List Category)
    (cat_vecs : List (String × List ℚ)) (weights : ℚ × ℚ × ℚ) (e : Scored)
    (he : e ∈ sortedCands chunks cosine fname cats cat_vecs weights) :
    0 ≤ e.score ∧ e.score ≤ 1 := by
  have hmem : e ∈ cats.map (fusedFor chunks cosine fname cat_vecs weights) :=
    (mem_sortByGe _ _ _).mp he
  rcases List.mem_map.mp hmem with ⟨c, _, rfl⟩
  exact ⟨fuse_scores_nonneg _ _ _ _, fuse_scores_le_one _ _ _ _⟩

theorem sortedCands_slugs (chunks : List Chunk) (cosine : List ℚ → List ℚ → ℚ)
    (fname : String) (cats : List Category) (cat_vecs : List (String × List ℚ))
    (weights : ℚ × ℚ × ℚ) (s : String) :
    (∃ e ∈ sortedCands chunks cosine fname cats cat_vecs weights, e.slug = s) ↔
      s ∈ cats.map Category.slug := by
  constructor
  · rintro ⟨e, he, rfl⟩
    have hmem : e ∈ cats.map (fusedFor chunks cosine fname cat_vecs weights) :=
      (mem_sortByGe _ _ _).mp he
    rcases List.mem_map.mp hmem with ⟨c, hc, rfl⟩
    exact List.mem_map.mpr ⟨c, hc, rfl⟩
  · intro hs
    rcases List.mem_map.mp hs with ⟨c, hc, rfl⟩
    refine ⟨fusedFor chunks cosine fname cat_vecs weights c, ?_, rfl⟩
    exact (mem_sortByGe _ _ _).mpr (List.mem_map.mpr ⟨c, hc, rfl⟩)

/-- Characterisation of a successful `categorize_document` call: the sorted
candidate list is non-empty and the result is assembled from its head. -/
theorem categorize_some_spec (chunks : List Chunk) (cosine : List ℚ → List ℚ → ℚ)
    (doc_id : Nat) (fname : String) (cats : List Category)
    (cat_vecs : List (String × List ℚ)) (fname_cnts : List (String × Nat))
    (st : Option String) (r : CatResult)
    (hr : categorize_document chunks cosine doc_id fname cats cat_vecs fname_cnts st
      = some r) :
    ∃ top rest,
      sortedCands chunks cosine fname cats cat_vecs (weightsOf fname fname_cnts)
        = top :: rest ∧
      r = assembleResult doc_id fname (top :: rest) top (ruleBestOf chunks fname st)
        (weightsOf fname fname_cnts) (dupCountOf fname_cnts fname)
        (is_generic_filename fname) := by
  unfold categorize_document at hr
  simp only [] at hr
  split at hr
  · cases hr
  · rename_i top rest heq
    exact ⟨top, rest, heq, (Option.some_inj.mp hr).symm⟩

/-! Helper lemmas about matcher spans and the clustering fold. -/

theorem classN_length (f : Char → Bool) :
    ∀ (n : Nat) (cs m r : Chars), classN f n cs = some (m, r) → m.length = n := by
  intro n
  induction n with
  | zero =>
    intro cs m r h
    simp only [classN, Option.some_inj, Prod.mk.injEq] at h
    rw [← h.1]
    rfl
  | succ k ih =>
    intro cs m r h
    cases cs with
    | nil => cases h
    | cons c rest =>
      simp only [classN] at h
      split at h
      · cases hrec : classN f k rest with
        | none => rw [hrec] at h; cases h
        | some pr =>
          rw [hrec] at h
          obtain ⟨m', r'⟩ := pr
          simp only [Option.some_inj, Prod.mk.injEq] at h
          rw [← h.1]
          simp [ih rest m' r' hrec]
      · cases h

theorem panAt_length (prev : Option Char) (cs m : Chars)
    (h : panAt prev cs = some m) : m.length = 10 := by
  unfold panAt at h
  split at h
  · cases h
  · split at h
    · cases h
    · rename_i a r1 h1
      split at h
      · cases h
      · rename_i d r2 h2
        split at h
        · cases h
        · rename_i z r3 h3
          split at h
          · rw [Option.some_inj] at h
            rw [← h]
            simp [classN_length _ _ _ _ _ h1, classN_length _ _ _ _ _ h2,
              classN_length _ _ _ _ _ h3]
          · cases h

theorem gstinAt_length (prev : Option Char) (cs m : Chars)
    (h : gstinAt prev cs = some m) : m.length = 15 := by
  unfold gstinAt at h
  split at h
  · cases h
  · split at h
    · cases h
    · rename_i p1 r1 h1
      split at h
      · cases h
      · rename_i p2 r2 h2
        split at h
        · cases h
        · rename_i p3 r3 h3
          split at h
          · cases h
          · rename_i p4 r4 h4
            split at h
            · cases h
            · rename_i p5 r5 h5
              split at h
              · cases h
              · rename_i p6 r6 h6
                split at h
                · cases h
                · rename_i p7 r7 h7
                  split at h
                  · rw [Option.some_inj] at h
                    rw [← h]
                    simp [classN_length _ _ _ _ _ h1, classN_length _ _ _ _ _ h2,
                      classN_length _ _ _ _ _ h3, classN_length _ _ _ _ _ h4,
                      classN_length _ _ _ _ _ h5, classN_length _ _ _ _ _ h6,
                      classN_length _ _ _ _ _ h7]
                  · cases h

theorem searchSpanFrom_some (m : Option Char → Chars → Option Chars) :
    ∀ (prev : Option Char) (cs r : Chars), searchSpanFrom m prev cs = some r →
      ∃ prev' cs', m prev' cs' = some r := by
  intro prev cs
  induction cs generalizing prev with
  | nil => intro r h; exact ⟨prev, [], h⟩
  | cons c rest ih =>
    intro r h
    simp only [searchSpanFrom] at h
    cases hm : m prev (c :: rest) with
    | some r' =>
      rw [hm] at h
      rw [Option.some_inj] at h
      exact ⟨prev, c :: rest, by rw [hm, h]⟩
    | none =>
      rw [hm] at h
      exact ih (some c) r h

theorem panSearch_length (s p : String) (h : panSearch s = some p) :
    p.length = 10 := by
  unfold panSearch rxSpan at h
  cases hs : searchSpanFrom panAt none s.data with
  | none => rw [hs] at h; cases h
  | some m =>
    rw [hs] at h
    have hp : String.mk m = p := Option.some_inj.mp h
    obtain ⟨prev', cs', hm⟩ := searchSpanFrom_some panAt none s.data m hs
    rw [← hp]
    exact panAt_length prev' cs' m hm

theorem gstinSearch_length (s g : String) (h : gstinSearch s = some g) :
    g.length = 15 := by
  unfold gstinSearch rxSpan at h
  cases hs : searchSpanFrom gstinAt none s.data with
  | none => rw [hs] at h; cases h
  | some m =>
    rw [hs] at h
    have hp : String.mk m = g := Option.some_inj.mp h
    obtain ⟨prev', cs', hm⟩ := searchSpanFrom_some gstinAt none s.data m hs
    rw [← hp]
    exact gstinAt_length prev' cs' m hm

theorem addDoc_docs_sub (key : String) (row : DocRow) (slug : String)
    (facts : Facts) :
    ∀ (l : List (String × Cluster)), ∀ kc ∈ addDoc key row slug facts l,
      ∀ q ∈ kc.2.docs, (∃ kc' ∈ l, q ∈ kc'.2.docs) ∨ q = row := by
  intro l
  induction l with
  | nil =>
    intro kc hkc q hq
    simp only [addDoc, List.mem_singleton] at hkc
    subst hkc
    simp only [addToCluster, List.nil_append, List.mem_singleton] at hq
    exact Or.inr hq
  | cons kc0 rest ih =>
    obtain ⟨k0, c0⟩ := kc0
    intro kc hkc q hq
    simp only [addDoc] at hkc
    split at hkc
    · rcases List.mem_cons.mp hkc with rfl | htl
      · simp only [addToCluster, List.mem_append, List.mem_singleton] at hq
        rcases hq with hold | rfl
        · exact Or.inl ⟨(k0, c0), List.mem_cons_self _ _, hold⟩
        · exact Or.inr rfl
      · exact Or.inl ⟨kc, List.mem_cons_of_mem _ htl, hq⟩
    · rcases List.mem_cons.mp hkc with rfl | htl
      · exact Or.inl ⟨(k0, c0), List.mem_cons_self _ _, hq⟩
      · rcases ih kc htl q hq with ⟨kc', hkc', hq'⟩ | hrow
        · exact Or.inl ⟨kc', List.mem_cons_of_mem _ hkc', hq'⟩
        · exact Or.inr hrow

theorem addDoc_fst_sub (key : String) (row : DocRow) (slug : String)
    (facts : Facts) :
    ∀ (l : List (String × Cluster)), ∀ x ∈ (addDoc key row slug facts l).map Prod.fst,
      x = key ∨ x ∈ l.map Prod.fst := by
  intro l
  induction l with
  | nil =>
    intro x hx
    simp only [addDoc, List.map_cons, List.map_nil, List.mem_singleton] at hx
    exact Or.inl hx
  | cons kc0 rest ih =>
    obtain ⟨k0, c0⟩ := kc0
    intro x hx
    simp only [addDoc] at hx
    split at hx
    · simp only [List.map_cons, List.mem_cons] at hx
      rcases hx with rfl | htl
      · exact Or.inr (by simp)
      · exact Or.inr (by simp [htl])
    · simp only [List.map_cons, List.mem_cons] at hx
      rcases hx with rfl | htl
      · exact Or.inr (by simp)
      · rcases ih x htl with rfl | hmem
        · exact Or.inl rfl
        · exact Or.inr (by simp [hmem])

theorem addDoc_keys_nodup (key : String) (row : DocRow) (slug : String)
    (facts : Facts) :
    ∀ (l : List (String × Cluster)), ((l.map Prod.fst).Nodup) →
      ((addDoc key row slug facts l).map Prod.fst).Nodup := by
  intro l
  induction l with
  | nil => intro _; simp [addDoc]
  | cons kc0 rest ih =>
    intro hnd
    obtain ⟨k0, c0⟩ := kc0
    simp only [List.map_cons, List.nodup_cons] at hnd
    simp only [addDoc]
    split
    · simp only [List.map_cons, List.nodup_cons]
      exact hnd
    · rename_i hne
      simp only [List.map_cons, List.nodup_cons]
      refine ⟨?_, ih hnd.2⟩
      intro hk0
      rcases addDoc_fst_sub key row slug facts rest k0 hk0 with rfl | hmem
      · exact hne rfl
      · exact hnd.1 hmem

/-- The key computed for one document row during clustering. -/
def rowKey (env : RoleEnv) (row : DocRow) : Option String :=
  entity_key (extract_facts (docTextOf env row))

theorem clusterFold_docs_inv (env : RoleEnv) :
    ∀ (docs : List DocRow) (acc : List (String × Cluster)),
      (∀ kc ∈ acc, ∀ q ∈ kc.2.docs, (rowKey env q).isSome) →
      ∀ kc ∈ docs.foldl
        (fun acc row =>
          let facts := extract_facts (docTextOf env row)
          match entity_key facts with
          | none => acc
          | some key => addDoc key row (docSlugOf row) facts acc) acc,
        ∀ q ∈ kc.2.docs, (rowKey env q).isSome := by
  intro docs
  induction docs with
  | nil => intro acc hacc; exact hacc
  | cons row rest ih =>
    intro acc hacc
    simp only [List.foldl_cons]
    refine ih _ ?_
    cases hk : entity_key (extract_facts (docTextOf env row)) with
    | none => simpa [hk] using hacc
    | some key =>
      simp only [hk]
      intro kc hkc q hq
      rcases addDoc_docs_sub key row (docSlugOf row)
        (extract_facts (docTextOf env row)) acc kc hkc q hq with ⟨kc', hkc', hq'⟩ | rfl
      · exact hacc kc' hkc' q hq'
      · simp [rowKey, hk]

theorem runClusters_docs_keyed (env : RoleEnv) :
    ∀ kc ∈ runClusters env, ∀ q ∈ kc.2.docs, (rowKey env q).isSome := by
  intro kc hkc q hq
  exact clusterFold_docs_inv env env.docs [] (by simp) kc hkc q hq

theorem clusterFold_keys_nodup (env : RoleEnv) :
    ∀ (docs : List DocRow) (acc : List (String × Cluster)),
      ((acc.map Prod.fst).Nodup) →
      ((docs.foldl
        (fun acc row =>
          let facts := extract_facts (docTextOf env row)
          match entity_key facts with
          | none => acc
          | some key => addDoc key row (docSlugOf row) facts acc) acc).map
            Prod.fst).Nodup := by
  intro docs
  induction docs with
  | nil => intro acc hacc; exact hacc
  | cons row rest ih =>
    intro acc hacc
    simp only [List.foldl_cons]
    refine ih _ ?_
    cases hk : entity_key (extract_facts (docTextOf env row)) with
    | none => simpa [hk] using hacc
    | some key =>
      simp only [hk]
      exact addDoc_keys_nodup key row (docSlugOf row)
        (extract_facts (docTextOf env row)) acc hacc

theorem runClusters_keys_nodup (env : RoleEnv) :
    ((runClusters env).map Prod.fst).Nodup :=
  clusterFold_keys_nodup env env.docs [] (by simp)

/-! Claim theorems. -/

/-- C7.  `entity_role_infer.run` writes back unconditionally: its apply flag is
accepted but never consulted (the run's writes are identical for every value
of it), and every document of every cluster receives an `update_match` write
carrying the cluster's role and organisation variant. -/
theorem claim7_dry_run_still_writes (env : RoleEnv) (st : String) (apply : Bool) :
    entityRun env st apply = entityRun env st true ∧
    ∀ ke cl, (ke, cl) ∈ runClusters env → ∀ row ∈ cl.docs,
      ∃ w ∈ entityRun env st apply, w.doc_id = row.id ∧
        w.top_entity = some (roleFor (runScored env) ke) ∧
        w.org_variant = some (org_variant_from_slugs cl.slugs) := by
  refine ⟨rfl, ?_⟩
  intro ke cl hmem row hrow
  have hne : (runClusters env).isEmpty = false := by
    cases hrc : runClusters env with
    | nil => rw [hrc] at hmem; cases hmem
    | cons a l => rfl
  have hrun : entityRun env st apply = writesFor (runScored env) := by
    unfold entityRun
    rw [hne]
    rfl
  have hescored : (⟨ke, (score_role cl.features).1, (score_role cl.features).2,
      org_variant_from_slugs cl.slugs, cl⟩ : CScored) ∈ runScored env := by
    unfold runScored
    exact (mem_sortByGe _ _ _).mpr (List.mem_map.mpr ⟨(ke, cl), hmem, rfl⟩)
  refine ⟨⟨row.id, row.canonical_slug, some (roleFor (runScored env) ke),
    some (org_variant_from_slugs cl.slugs), row.state_variant, row.confidence,
    statusOr row.status⟩, ?_, rfl, rfl, rfl⟩
  rw [hrun]
  unfold writesFor
  refine List.mem_flatten.mpr ⟨_, List.mem_map.mpr ⟨_, hescored, rfl⟩, ?_⟩
  exact List.mem_map.mpr ⟨row, hrow, rfl⟩

def rowC7 : DocRow := { id := 3, canonical_slug := some "dev_company_tan" }

def envC7 : RoleEnv := ⟨[rowC7], fun _ => [(1, "PAN: AAAAA1111A", none)]⟩

theorem claim7_witness :
    ∃ w ∈ entityRun envC7 "TS" false, w.doc_id = 3 ∧
      w.top_entity = some "developer_entity" ∧ w.org_variant = some "company" := by
  have hrc : runClusters envC7 =
      [("pan:AAAAA1111A",
        ⟨[rowC7], ["dev_company_tan"], [("tan", 1)],
         extract_facts (docTextOf envC7 rowC7)⟩)] := rfl
  obtain ⟨_, hall⟩ := claim7_dry_run_still_writes envC7 "TS" false
  obtain ⟨w, hw, hid, hrole, hvar⟩ :=
    hall "pan:AAAAA1111A"
      ⟨[rowC7], ["dev_company_tan"], [("tan", 1)],
       extract_facts (docTextOf envC7 rowC7)⟩
      (by rw [hrc]; exact List.mem_cons_self _ _)
      rowC7 (List.mem_cons_self _ _)
  refine ⟨w, hw, hid, ?_, ?_⟩
  · rw [hrole]; rfl
  · rw [hvar]; rfl

/-- Python truthiness of an optional string: absent or empty. -/
def optEmpty (v : Option String) : Prop := v = none ∨ v = some ""

theorem keyOf_empty (tag : String) (v : Option String) (h : optEmpty v) :
    keyOf tag v = none := by
  rcases h with rfl | rfl
  · rfl
  · rfl

theorem keyOf_some (tag s : String) (h : s.length ≠ 0) :
    keyOf tag (some s) = some (tag ++ ":" ++ s) := by
  simp [keyOf, h]

/-- C8.  Entity key priority: the direct PAN match always wins as the key; a
PAN is derived from GSTIN characters 3..12 only when no direct PAN matched and
it then becomes the key; the key is the first non-empty of PAN, GSTIN, LLPIN,
CIN, normalised name in that order; and a document whose facts yield no key is
excluded from clustering. -/
theorem claim8_entity_key_priority :
    (∀ (text p g : String), panSearch text = some p → gstinSearch text = some g →
      (extract_facts text).pan = some p ∧
      entity_key (extract_facts text) = some ("pan:" ++ p)) ∧
    (∀ (text g : String), panSearch text = none → gstinSearch text = some g →
      (extract_facts text).pan = some (String.mk ((g.data.drop 2).take 10)) ∧
      entity_key (extract_facts text) =
        some ("pan:" ++ String.mk ((g.data.drop 2).take 10))) ∧
    (∀ f : Facts,
      (∀ p, f.pan = some p → p.length ≠ 0 →
        entity_key f = some ("pan:" ++ p)) ∧
      (optEmpty f.pan → ∀ v, f.gstin = some v → v.length ≠ 0 →
        entity_key f = some ("gstin:" ++ v)) ∧
      (optEmpty f.pan → optEmpty f.gstin → ∀ v, f.llpin = some v →
        v.length ≠ 0 → entity_key f = some ("llpin:" ++ v)) ∧
      (optEmpty f.pan → optEmpty f.gstin → optEmpty f.llpin → ∀ v, f.cin = some v →
        v.length ≠ 0 → entity_key f = some ("cin:" ++ v)) ∧
      (optEmpty f.pan → optEmpty f.gstin → optEmpty f.llpin → optEmpty f.cin →
        ∀ v, f.name_key = some v → v.length ≠ 0 →
        entity_key f = some ("name_key:" ++ v))) ∧
    (∀ (env : RoleEnv) (row : DocRow), rowKey env row = none →
      ∀ kc ∈ runClusters env, row ∉ kc.2.docs) := by
  refine ⟨?_, ?_, ?_, ?_⟩
  · intro text p g hp hg
    have hlen := panSearch_length text p hp
    have hfact : (extract_facts text).pan = some p := by
      unfold extract_facts
      rw [hp]
    refine ⟨hfact, ?_⟩
    unfold entity_key
    rw [hfact, keyOf_some "pan" p (by rw [hlen]; norm_num)]
    rfl
  · intro text g hp hg
    have hlen := gstinSearch_length text g hg
    have hfact : (extract_facts text).pan =
        some (String.mk ((g.data.drop 2).take 10)) := by
      unfold extract_facts
      rw [hp, hg]
      simp only [hlen]
      norm_num
    refine ⟨hfact, ?_⟩
    have hdlen : (String.mk ((g.data.drop 2).take 10)).length = 10 := by
      have hdata : g.data.length = 15 := hlen
      show ((g.data.drop 2).take 10).length = 10
      rw [List.length_take, List.length_drop, hdata]
      decide
    unfold entity_key
    rw [hfact, keyOf_some "pan" _ (by rw [hdlen]; norm_num)]
    rfl
  · intro f
    refine ⟨?_, ?_, ?_, ?_, ?_⟩
    · intro p hp hne
      unfold entity_key
      rw [hp, keyOf_some "pan" p hne]
      rfl
    · intro hp v hv hne
      unfold entity_key
      rw [keyOf_empty "pan" f.pan hp, hv, keyOf_some "gstin" v hne]
      rfl
    · intro hp hg v hv hne
      unfold entity_key
      rw [keyOf_empty "pan" f.pan hp, keyOf_empty "gstin" f.gstin hg, hv,
        keyOf_some "llpin" v hne]
      rfl
    · intro hp hg hl v hv hne
      unfold entity_key
      rw [keyOf_empty "pan" f.pan hp, keyOf_empty "gstin" f.gstin hg,
        keyOf_empty "llpin" f.llpin hl, hv, keyOf_some "cin" v hne]
      rfl
    · intro hp hg hl hc v hv hne
      unfold entity_key
      rw [keyOf_empty "pan" f.pan hp, keyOf_empty "gstin" f.gstin hg,
        keyOf_empty "llpin" f.llpin hl, keyOf_empty "cin" f.cin hc, hv,
        keyOf_some "name_key" v hne]
      rfl
  · intro env row hnone kc hkc hrow
    have := runClusters_docs_keyed env kc hkc row hrow
    rw [hnone] at this
    cases this

theorem claim8_witness :
    entity_key (extract_facts "PAN: ABCDE1234F GSTIN: 36ABCDE1234F1Z5") =
      some "pan:ABCDE1234F" ∧
    entity_key (extract_facts "GSTIN: 29ZZZZZ9999Z1Z9") = some "pan:ZZZZZ9999Z" := by
  obtain ⟨ha, hb, _, _⟩ := claim8_entity_key_priority
  obtain ⟨_, h1⟩ := ha "PAN: ABCDE1234F GSTIN: 36ABCDE1234F1Z5" "ABCDE1234F"
    "36ABCDE1234F1Z5" (by decide) (by decide)
  obtain ⟨_, h2⟩ := hb "GSTIN: 29ZZZZZ9999Z1Z9" "29ZZZZZ9999Z1Z9"
    (by decide) (by decide)
  constructor
  · rw [h1]
    rfl
  · rw [h2]
    rfl

theorem geCScored_total (a b : CScored) : (geCScored a b || geCScored b a) = true := by
  simp only [geCScored, Bool.or_eq_true, decide_eq_true_eq, Bool.and_eq_true]
  omega

/-- With pairwise-distinct keys, the role computed by key comparison equals the
positional reading: first developer, second group, rest other. -/
theorem roleFor_positional (l : List CScored) (hnd : (l.map CScored.key).Nodup) :
    ∀ (i : Nat) (h : i < l.length),
      roleFor l ((l.get ⟨i, h⟩).key) =
        (if i = 0 then "developer_entity"
         else if i = 1 then "group_entity" else "other_entity") := by
  intro i h
  cases l with
  | nil => cases h
  | cons d rest =>
    cases i with
    | zero =>
      show roleFor (d :: rest) d.key = _
      simp [roleFor]
    | succ j =>
      have hj : j < rest.length := Nat.lt_of_succ_lt_succ h
      have hmemj : (rest.get ⟨j, hj⟩).key ∈ rest.map CScored.key :=
        List.mem_map.mpr ⟨_, List.get_mem _ _ _, rfl⟩
      have hnotd : d.key ∉ rest.map CScored.key := by
        simp only [List.map_cons, List.nodup_cons] at hnd
        exact hnd.1
      have hne_d : (rest.get ⟨j, hj⟩).key ≠ d.key := by
        intro heq
        exact hnotd (heq ▸ hmemj)
      cases rest with
      | nil => cases hj
      | cons g2 rest2 =>
        cases j with
        | zero =>
          show roleFor (d :: g2 :: rest2) g2.key = _
          simp only [roleFor]
          rw [if_neg (show g2.key ≠ d.key from hne_d)]
          simp
        | succ k =>
          have hk : k < rest2.length := Nat.lt_of_succ_lt_succ hj
          have hmemk : (rest2.get ⟨k, hk⟩).key ∈ rest2.map CScored.key :=
            List.mem_map.mpr ⟨_, List.get_mem _ _ _, rfl⟩
          have hnotg : g2.key ∉ rest2.map CScored.key := by
            simp only [List.map_cons, List.nodup_cons] at hnd
            exact hnd.2.1
          have hne_g : (rest2.get ⟨k, hk⟩).key ≠ g2.key := by
            intro heq
            exact hnotg (heq ▸ hmemk)
          show roleFor (d :: g2 :: rest2) ((rest2.get ⟨k, hk⟩).key) = _
          simp only [roleFor]
          rw [if_neg (show (rest2.get ⟨k, hk⟩).key ≠ d.key from hne_d),
            if_neg hne_g]
          simp

/-- C9.  Role assignment: clusters are sorted descending by the composite
`(developer score, group score)` key; the first sorted cluster's key gets the
role developer_entity, the second group_entity, and every later one
other_entity. -/
theorem claim9_role_assignment (env : RoleEnv) :
    List.Chain' (fun a b => geCScored a b = true) (runScored env) ∧
    ∀ (i : Nat) (h : i < (runScored env).length),
      roleFor (runScored env) (((runScored env).get ⟨i, h⟩).key) =
        (if i = 0 then "developer_entity"
         else if i = 1 then "group_entity" else "other_entity") := by
  have hnd : ((runScored env).map CScored.key).Nodup := by
    have hperm : (runScored env).Perm
        ((runClusters env).map (fun kc =>
          (⟨kc.1, (score_role kc.2.features).1, (score_role kc.2.features).2,
           org_variant_from_slugs kc.2.slugs, kc.2⟩ : CScored))) :=
      sortByGe_perm _ _
    refine (hperm.map CScored.key).nodup_iff.mpr ?_
    rw [List.map_map]
    exact runClusters_keys_nodup env
  constructor
  · exact sortByGe_chain geCScored (fun a b => geCScored_total a b) _
  · exact roleFor_positional (runScored env) hnd

/-! C10: the filename-score range and the character-for-character convergence
claim. -/

/-- One character-for-character convergence step of a name toward a target:
the first differing position is set to the target's character; when the name
is a proper initial run of the target the next target character is appended;
extra characters beyond the target are dropped. -/
def stepChars : Chars → Chars → Chars
  | [], _ => []
  | c :: _, [] => [c]
  | t :: ts, s :: ss => if s = t then t :: stepChars ts ss else t :: ss

def stepToward (target s : String) : String := String.mk (stepChars target.data s.data)

theorem clamp01_nonneg (x : ℚ) : 0 ≤ clamp01 x := le_max_left _ _

theorem clamp01_le_one (x : ℚ) : clamp01 x ≤ 1 :=
  max_le (by norm_num) (min_le_left _ _)

theorem indelRatio_bounds (a b : Chars) : 0 ≤ indelRatio a b ∧ indelRatio a b ≤ 100 := by
  unfold indelRatio
  split
  · norm_num
  · have h0 := clamp01_nonneg ((2 * (lcsLen a b : ℚ)) / ((a.length : ℚ) + (b.length : ℚ)))
    have h1 := clamp01_le_one ((2 * (lcsLen a b : ℚ)) / ((a.length : ℚ) + (b.length : ℚ)))
    constructor <;> nlinarith

theorem tokenSetRatio_bounds (a b : Chars) :
    0 ≤ tokenSetRatio a b ∧ tokenSetRatio a b ≤ 100 := by
  unfold tokenSetRatio
  simp only []
  split
  · norm_num
  · split
    · norm_num
    · set q := ((((toksOf a).dedup.filter
        (fun t => (toksOf b).dedup.contains t)).length : ℚ) /
        (((toksOf a).dedup.length + (toksOf b).dedup.length -
          ((toksOf a).dedup.filter (fun t => (toksOf b).dedup.contains t)).length : Nat) : ℚ))
      have h0 := clamp01_nonneg q
      have h1 := clamp01_le_one q
      constructor <;> nlinarith

theorem foldl_max_indel_bounds (s : Chars) (ws : List Chars) :
    ∀ (init : ℚ), 0 ≤ init → init ≤ 100 →
      0 ≤ ws.foldl (fun m w => max m (indelRatio s w)) init ∧
      ws.foldl (fun m w => max m (indelRatio s w)) init ≤ 100 := by
  induction ws with
  | nil => intro init h0 h1; exact ⟨h0, h1⟩
  | cons w rest ih =>
    intro init h0 h1
    simp only [List.foldl_cons]
    obtain ⟨hw0, hw1⟩ := indelRatio_bounds s w
    exact ih _ (le_trans h0 (le_max_left _ _)) (max_le h1 hw1)

theorem partialRatio_bounds (a b : Chars) :
    0 ≤ partialRatio a b ∧ partialRatio a b ≤ 100 := by
  unfold partialRatio
  simp only []
  split
  · split
    · split <;> norm_num
    · exact foldl_max_indel_bounds _ _ 0 (le_refl 0) (by norm_num)
  · split
    · split <;> norm_num
    · exact foldl_max_indel_bounds _ _ 0 (le_refl 0) (by norm_num)

theorem score_fold_bounds (base : String) (cands : List String) :
    ∀ (init : ℚ), 0 ≤ init → init ≤ 100 →
      0 ≤ cands.foldl
        (fun best cand =>
          max (max (max best (tokenSetRatio base.data cand.data))
            (partialRatio base.data cand.data)) (indelRatio base.data cand.data)) init ∧
      cands.foldl
        (fun best cand =>
          max (max (max best (tokenSetRatio base.data cand.data))
            (partialRatio base.data cand.data)) (indelRatio base.data cand.data)) init
        ≤ 100 := by
  induction cands with
  | nil => intro init h0 h1; exact ⟨h0, h1⟩
  | cons c rest ih =>
    intro init h0 h1
    simp only [List.foldl_cons]
    obtain ⟨ht0, ht1⟩ := tokenSetRatio_bounds base.data c.data
    obtain ⟨hp0, hp1⟩ := partialRatio_bounds base.data c.data
    obtain ⟨hi0, hi1⟩ := indelRatio_bounds base.data c.data
    refine ih _ ?_ ?_
    · exact le_trans h0 (le_trans (le_max_left _ _)
        (le_trans (le_max_left _ _) (le_max_left _ _)))
    · exact max_le (max_le (max_le h1 ht1) hp1) hi1

/-- C10 (amended part).  The filename score always lies in [0, 1]; the spec's
monotone-convergence clause is refuted separately by
`claim10_counterexample`. -/
theorem claim10_amended_score_range (name : String) (cat : Category) :
    0 ≤ score_filename name cat ∧ score_filename name cat ≤ 1 := by
  unfold score_filename
  obtain ⟨h0, h1⟩ :=
    score_fold_bounds (cleanFname name) (namesForFuzzy cat) 0 (le_refl 0) (by norm_num)
  constructor
  · positivity
  · rw [div_le_one (by norm_num)]
    exact h1

theorem indelRatio_eval (a b : Chars) (k la lb : Nat) (hlcs : lcsLen a b = k)
    (hla : a.length = la) (hlb : b.length = lb) (h : ¬(la + lb = 0)) :
    indelRatio a b = 100 * clamp01 ((2 * (k : ℚ)) / ((la : ℚ) + (lb : ℚ))) := by
  unfold indelRatio
  rw [hla, hlb, hlcs, if_neg h]

theorem partialRatio_le_case (a b : Chars) (hab : a.length ≤ b.length)
    (hne : ¬(a.length = 0)) :
    partialRatio a b =
      (windowsFrom a.length b).foldl (fun m w => max m (indelRatio a w)) 0 := by
  unfold partialRatio
  simp only []
  rw [if_pos hab, if_pos hab, if_neg hne]

theorem tokenSetRatio_eval (a b : Chars) (ta tb : List String) (i u : Nat)
    (hta : (toksOf a).dedup = ta) (htb : (toksOf b).dedup = tb)
    (hne1 : ta.length ≠ 0) (hne2 : tb.length ≠ 0)
    (hi : (ta.filter (fun t => tb.contains t)).length = i)
    (hu : ta.length + tb.length - i = u) :
    tokenSetRatio a b = 100 * clamp01 ((i : ℚ) / (u : ℚ)) := by
  unfold tokenSetRatio
  simp only []
  rw [hta, htb, if_neg (by simp [hne1, hne2]), if_neg (by simp [hne1, hne2]),
    hi, hu]

/-- The category used to refute the monotone-convergence clause: its slug is
`moa` while its display name is `deed`, so a filename that exactly matches the
slug scores 1.0 and drops after one convergence step toward the display
name. -/
def moaCat : Category := ⟨"moa", "deed", "dev_company_documents", none, none, [], [], ""⟩

theorem score_moa_eval : score_filename "moa" moaCat = 1 := by
  have tMD : tokenSetRatio "moa".data "deed".data = 0 := by
    rw [tokenSetRatio_eval "moa".data "deed".data ["moa"] ["deed"] 0 2 (by decide)
      (by decide) (by decide) (by decide) (by decide) (by decide)]
    norm_num [clamp01]
  have tMM : tokenSetRatio "moa".data "moa".data = 100 := by
    rw [tokenSetRatio_eval "moa".data "moa".data ["moa"] ["moa"] 1 1 (by decide)
      (by decide) (by decide) (by decide) (by decide) (by decide)]
    norm_num [clamp01]
  have iMdee : indelRatio "moa".data ['d', 'e', 'e'] = 0 := by
    rw [indelRatio_eval "moa".data ['d', 'e', 'e'] 0 3 3 (by decide) (by decide)
      (by decide) (by decide)]
    norm_num [clamp01]
  have iMeed : indelRatio "moa".data ['e', 'e', 'd'] = 0 := by
    rw [indelRatio_eval "moa".data ['e', 'e', 'd'] 0 3 3 (by decide) (by decide)
      (by decide) (by decide)]
    norm_num [clamp01]
  have iMM : indelRatio "moa".data "moa".data = 100 := by
    rw [indelRatio_eval "moa".data "moa".data 3 3 3 (by decide) (by decide)
      (by decide) (by decide)]
    norm_num [clamp01]
  have iMD : indelRatio "moa".data "deed".data = 0 := by
    rw [indelRatio_eval "moa".data "deed".data 0 3 4 (by decide) (by decide)
      (by decide) (by decide)]
    norm_num [clamp01]
  have pMD : partialRatio "moa".data "deed".data = 0 := by
    rw [partialRatio_le_case "moa".data "deed".data (by decide) (by decide)]
    rw [show windowsFrom ("moa".data.length) "deed".data =
      [['d', 'e', 'e'], ['e', 'e', 'd']] from by decide]
    simp only [List.foldl_cons, List.foldl_nil]
    rw [iMdee, iMeed]
    norm_num
  have pMM : partialRatio "moa".data "moa".data = 100 := by
    rw [partialRatio_le_case "moa".data "moa".data (by decide) (by decide)]
    rw [show windowsFrom ("moa".data.length) "moa".data = ["moa".data] from by decide]
    simp only [List.foldl_cons, List.foldl_nil]
    rw [iMM]
    norm_num
  unfold score_filename
  rw [show cleanFname "moa" = "moa" from by decide,
    show namesForFuzzy moaCat = ["deed", "moa"] from by decide]
  simp only [List.foldl_cons, List.foldl_nil]
  rw [tMD, pMD, iMD, tMM, pMM, iMM]
  norm_num

theorem score_doa_eval : score_filename "doa" moaCat = 2/3 := by
  have tXD : tokenSetRatio "doa".data "deed".data = 0 := by
    rw [tokenSetRatio_eval "doa".data "deed".data ["doa"] ["deed"] 0 2 (by decide)
      (by decide) (by decide) (by decide) (by decide) (by decide)]
    norm_num [clamp01]
  have tXM : tokenSetRatio "doa".data "moa".data = 0 := by
    rw [tokenSetRatio_eval "doa".data "moa".data ["doa"] ["moa"] 0 2 (by decide)
      (by decide) (by decide) (by decide) (by decide) (by decide)]
    norm_num [clamp01]
  have iXdee : indelRatio "doa".data ['d', 'e', 'e'] = 100/3 := by
    rw [indelRatio_eval "doa".data ['d', 'e', 'e'] 1 3 3 (by decide) (by decide)
      (by decide) (by decide)]
    norm_num [clamp01]
  have iXeed : indelRatio "doa".data ['e', 'e', 'd'] = 100/3 := by
    rw [indelRatio_eval "doa".data ['e', 'e', 'd'] 1 3 3 (by decide) (by decide)
      (by decide) (by decide)]
    norm_num [clamp01]
  have iXM : indelRatio "doa".data "moa".data = 200/3 := by
    rw [indelRatio_eval "doa".data "moa".data 2 3 3 (by decide) (by decide)
      (by decide) (by decide)]
    norm_num [clamp01]
  have iXD : indelRatio "doa".data "deed".data = 200/7 := by
    rw [indelRatio_eval "doa".data "deed".data 1 3 4 (by decide) (by decide)
      (by decide) (by decide)]
    norm_num [clamp01]
  have pXD : partialRatio "doa".data "deed".data = 100/3 := by
    rw [partialRatio_le_case "doa".data "deed".data (by decide) (by decide)]
    rw [show windowsFrom ("doa".data.length) "deed".data =
      [['d', 'e', 'e'], ['e', 'e', 'd']] from by decide]
    simp only [List.foldl_cons, List.foldl_nil]
    rw [iXdee, iXeed]
    norm_num
  have pXM : partialRatio "doa".data "moa".data = 200/3 := by
    rw [partialRatio_le_case "doa".data "moa".data (by decide) (by decide)]
    rw [show windowsFrom ("doa".data.length) "moa".data = ["moa".data] from by decide]
    simp only [List.foldl_cons, List.foldl_nil]
    rw [iXM]
    norm_num
  unfold score_filename
  rw [show cleanFname "doa" = "doa" from by decide,
    show namesForFuzzy moaCat = ["deed", "moa"] from by decide]
  simp only [List.foldl_cons, List.foldl_nil]
  rw [tXD, pXD, iXD, tXM, pXM, iXM]
  norm_num

/-- C10 counterexample.  One character-for-character convergence step of the
filename `moa` toward the display name of `moaCat` produces `doa`, and the
filename score strictly drops from 1 to 2/3: `score_filename` is not
monotonically non-decreasing along the convergence. -/
theorem claim10_counterexample :
    stepToward moaCat.display "moa" = "doa" ∧
    score_filename (stepToward moaCat.display "moa") moaCat <
      score_filename "moa" moaCat := by
  have hstep : stepToward moaCat.display "moa" = "doa" := by decide
  refine ⟨hstep, ?_⟩
  rw [hstep, score_doa_eval, score_moa_eval]
  norm_num

def envC9 : RoleEnv :=
  ⟨[{ id := 0, canonical_slug := some "dev_company_tan" },
    { id := 1, canonical_slug := some "dev_company_tan" },
    { id := 2, canonical_slug := some "dev_company_tan" },
    { id := 3, canonical_slug := some "dev_company_tan" },
    { id := 4, canonical_slug := some "dev_company_tan" },
    { id := 10, canonical_slug := some "dev_company_gst_pan" },
    { id := 11, canonical_slug := some "dev_company_gst_pan" },
    { id := 12, canonical_slug := some "dev_company_gst_pan" },
    { id := 13, canonical_slug := some "dev_company_gst_pan" },
    { id := 20, canonical_slug := some "dev_company_gst_pan" }],
   fun i =>
    if i < 5 then [(1, "PAN: AAAAA1111A", none)]
    else if i < 20 then [(1, "PAN: BBBBB2222B", none)]
    else [(1, "PAN: CCCCC3333C", none)]⟩

theorem claim9_witness :
    (runScored envC9).map (fun e => (e.dev, e.grp)) = [(10, 0), (4, 4), (1, 1)] ∧
    roleFor (runScored envC9) (((runScored envC9).get ⟨0, by decide⟩).key)
      = "developer_entity" ∧
    roleFor (runScored envC9) (((runScored envC9).get ⟨1, by decide⟩).key)
      = "group_entity" ∧
    roleFor (runScored envC9) (((runScored envC9).get ⟨2, by decide⟩).key)
      = "other_entity" := by
  obtain ⟨_, hpos⟩ := claim9_role_assignment envC9
  refine ⟨by decide, ?_, ?_, ?_⟩
  · rw [hpos 0 (by decide)]
    rfl
  · rw [hpos 1 (by decide)]
    rfl
  · rw [hpos 2 (by decide)]
    rfl

/-- C6.  Status assignment of the resolver: the status is a function of the
final score alone, with accepted at 0.70 and above, needs_review on
[0.60, 0.70), and unassigned below 0.60; no other input influences it. -/
theorem claim6_status_thresholds (chunks : List Chunk)
    (cosine : List ℚ → List ℚ → ℚ) (doc_id : Nat) (fname : String)
    (cats : List Category) (cat_vecs : List (String × List ℚ))
    (fname_cnts : List (String × Nat)) (st : Option String) (r : CatResult)
    (hr : categorize_document chunks cosine doc_id fname cats cat_vecs fname_cnts st
      = some r) :
    r.status = statusOf r.final ∧
    (7/10 ≤ r.final → r.status = "accepted") ∧
    (3/5 ≤ r.final ∧ r.final < 7/10 → r.status = "needs_review") ∧
    (r.final < 3/5 → r.status = "unassigned") := by
  obtain ⟨top, rest, _, hres⟩ :=
    categorize_some_spec chunks cosine doc_id fname cats cat_vecs fname_cnts st r hr
  subst hres
  refine ⟨rfl, ?_, ?_, ?_⟩
  · intro h
    simp only [assembleResult, statusOf]
    rw [if_pos (by exact h)]
  · rintro ⟨h1, h2⟩
    simp only [assembleResult, statusOf]
    rw [if_neg (by simp only [assembleResult] at h2; linarith), if_pos (by exact h1)]
  · intro h
    simp only [assembleResult, statusOf]
    rw [if_neg (by simp only [assembleResult] at h; linarith),
      if_neg (by simp only [assembleResult] at h; linarith)]

def catZz : Category := ⟨"zzz_slug", "Zzz Qqq", "other", none, none, [], [], ""⟩

/-- On a singleton candidate list the sorted candidates are that one fused row
and the decision record assembles definitionally. -/
theorem categorize_singleton (chunks : List Chunk) (cosine : List ℚ → List ℚ → ℚ)
    (doc_id : Nat) (fname : String) (c : Category)
    (cat_vecs : List (String × List ℚ)) (fname_cnts : List (String × Nat))
    (st : Option String) :
    categorize_document chunks cosine doc_id fname [c] cat_vecs fname_cnts st =
      some (assembleResult doc_id fname
        [fusedFor chunks cosine fname cat_vecs (weightsOf fname fname_cnts) c]
        (fusedFor chunks cosine fname cat_vecs (weightsOf fname fname_cnts) c)
        (ruleBestOf chunks fname st) (weightsOf fname fname_cnts)
        (dupCountOf fname_cnts fname) (is_generic_filename fname)) := rfl

theorem docpdf_rules_empty :
    rules_from_text_and_filename (docWindow []) "doc.pdf" none = [] := by
  have h1 : TEXT_RULES.filterMap (entryHit (docWindow [])) = [] := textRules_silent _
  have h2 : bankRouter (docWindow []) none = [] := by
    have hb : BANK_STMT_RX.search (docWindow []) = false := by decide
    simp [bankRouter, hb]
  have h3 : filenameHits "doc.pdf" = [] := by decide
  simp [rules_from_text_and_filename, h1, h2, h3]

theorem docpdf_rule_best : ruleBestOf [] "doc.pdf" none = none := by
  simp [ruleBestOf, docpdf_rules_empty, maxHit]

theorem docpdf_fused_score :
    (fusedFor [] (fun _ _ => 0) "doc.pdf" [] (weightsOf "doc.pdf" []) catZz).score
      = 0 := by
  have hg : is_generic_filename "doc.pdf" = true := by decide
  have hs2 : score_keywords [] catZz 6 = 0 := rfl
  have hs3 : score_embeddings (fun _ _ => 0) (doc_vector_mean [] 8)
      (lookupVec [] catZz.slug) = 0 := rfl
  simp only [fusedFor, fuse_scores, weightsOf, hg, hs2, hs3, weight1, Bool.true_or,
    if_true]
  norm_num

theorem claim6_witness :
    ∃ r, categorize_document [] (fun _ _ => 0) 1 "doc.pdf" [catZz] [] [] none
      = some r ∧ r.status = "unassigned" := by
  have hcat := categorize_singleton [] (fun _ _ => 0) 1 "doc.pdf" catZz [] [] none
  obtain ⟨_, _, _, hun⟩ :=
    claim6_status_thresholds [] (fun _ _ => 0) 1 "doc.pdf" [catZz] [] [] none _ hcat
  have hfinal : (assembleResult 1 "doc.pdf"
      [fusedFor [] (fun _ _ => 0) "doc.pdf" [] (weightsOf "doc.pdf" []) catZz]
      (fusedFor [] (fun _ _ => 0) "doc.pdf" [] (weightsOf "doc.pdf" []) catZz)
      (ruleBestOf [] "doc.pdf" none) (weightsOf "doc.pdf" [])
      (dupCountOf [] "doc.pdf") (is_generic_filename "doc.pdf")).final = 0 := by
    simp only [assembleResult, docpdf_rule_best, applyRule]
    exact docpdf_fused_score
  exact ⟨_, hcat, hun (by rw [hfinal]; norm_num)⟩

/-- C5.  The dynamic fusion weights of the resolver: the keyword and embedding
weights are fixed at 0.30; the filename weight is 0 for a generic name or a
case-insensitive duplicate count of at least 3, 0.20 at exactly 2, and the
full 0.40 otherwise. -/
theorem claim5_weight_damping (chunks : List Chunk)
    (cosine : List ℚ → List ℚ → ℚ) (doc_id : Nat) (fname : String)
    (cats : List Category) (cat_vecs : List (String × List ℚ))
    (fname_cnts : List (String × Nat)) (st : Option String) (r : CatResult)
    (hr : categorize_document chunks cosine doc_id fname cats cat_vecs fname_cnts st
      = some r) :
    r.weights.2.1 = 3/10 ∧ r.weights.2.2 = 3/10 ∧
    (is_generic_filename fname = true ∨ 3 ≤ dupCountOf fname_cnts fname →
      r.weights.1 = 0) ∧
    (is_generic_filename fname = false ∧ dupCountOf fname_cnts fname = 2 →
      r.weights.1 = 1/5) ∧
    (is_generic_filename fname = false ∧ dupCountOf fname_cnts fname ≤ 1 →
      r.weights.1 = 2/5) := by
  obtain ⟨top, rest, _, hres⟩ :=
    categorize_some_spec chunks cosine doc_id fname cats cat_vecs fname_cnts st r hr
  subst hres
  refine ⟨rfl, rfl, ?_, ?_, ?_⟩
  · intro h
    simp only [assembleResult, weightsOf, weight1]
    rcases h with hg | hd
    · rw [if_pos (by simp [hg])]
    · rw [if_pos (by simp [hd])]
  · rintro ⟨hg, hd⟩
    simp only [assembleResult, weightsOf, weight1]
    rw [if_neg (by simp [hg]; omega), if_pos hd]
  · rintro ⟨hg, hd⟩
    simp only [assembleResult, weightsOf, weight1]
    rw [if_neg (by simp [hg]; omega), if_neg (by omega)]

/-- C3.  Rule override of the resolver: when any rule hit exists the
maximum-score hit is taken; if its slug is among the (jurisdiction-filtered)
candidate set that slug is forced as the winner and the final score becomes
`max(fused, rule score)`; otherwise the fused winner stands, the final score
becomes `max(fused, 0.9 * rule score)` and the applied-rule record is marked
partial. -/
theorem claim3_rule_override (chunks : List Chunk)
    (cosine : List ℚ → List ℚ → ℚ) (doc_id : Nat) (fname : String)
    (cats : List Category) (cat_vecs : List (String × List ℚ))
    (fname_cnts : List (String × Nat)) (st : Option String) (r : CatResult)
    (hr : categorize_document chunks cosine doc_id fname cats cat_vecs fname_cnts st
      = some r)
    (hne : rules_from_text_and_filename (docWindow chunks) fname st ≠ []) :
    ∃ rb, ruleBestOf chunks fname st = some rb ∧
      rb ∈ rules_from_text_and_filename (docWindow chunks) fname st ∧
      (∀ x ∈ rules_from_text_and_filename (docWindow chunks) fname st,
        x.2.1 ≤ rb.2.1) ∧
      ∃ top rest, r.scoredList = top :: rest ∧
        (rb.1 ∈ cats.map Category.slug →
          r.best_slug = rb.1 ∧ r.final = max top.score rb.2.1 ∧
          r.rule = some ⟨rb.1, rb.2.1, rb.2.2⟩) ∧
        (rb.1 ∉ cats.map Category.slug →
          r.best_slug = top.slug ∧ r.final = max top.score (rb.2.1 * (9/10)) ∧
          r.rule = some ⟨rb.1, rb.2.1 * (9/10), rb.2.2 ++ " (partial)"⟩) := by
  obtain ⟨top, rest, hsc, hres⟩ :=
    categorize_some_spec chunks cosine doc_id fname cats cat_vecs fname_cnts st r hr
  obtain ⟨rb, hrb⟩ := maxHit_isSome _ hne
  have hrb' : ruleBestOf chunks fname st = some rb := by
    simpa [ruleBestOf] using hrb
  obtain ⟨rs, rq, rr⟩ := rb
  subst hres
  refine ⟨(rs, rq, rr), hrb', maxHit_mem _ _ hrb, maxHit_ge _ _ hrb, top, rest, rfl,
    ?_, ?_⟩
  · intro hmem
    obtain ⟨e, he, hesl⟩ :=
      (sortedCands_slugs chunks cosine fname cats cat_vecs
        (weightsOf fname fname_cnts) rs).mpr hmem
    rw [hsc] at he
    have hfs : ((top :: rest).find? (fun e => e.slug == rs)).isSome :=
      List.find?_isSome.mpr ⟨e, he, by simp [hesl]⟩
    obtain ⟨e', hfe⟩ := Option.isSome_iff_exists.mp hfs
    refine ⟨?_, ?_, ?_⟩ <;>
      simp [assembleResult, applyRule, hrb', hfe]
  · intro hnmem
    have hfn : ((top :: rest).find? (fun e => e.slug == rs)) = none := by
      cases hfe : (top :: rest).find? (fun e => e.slug == rs) with
      | none => rfl
      | some e =>
        exfalso
        have hee : e ∈ top :: rest := List.mem_of_find?_eq_some hfe
        have hp := List.find?_some hfe
        have hesl : e.slug = rs := by simpa using hp
        rw [← hsc] at hee
        exact hnmem ((sortedCands_slugs chunks cosine fname cats cat_vecs
          (weightsOf fname fname_cnts) rs).mp ⟨e, hee, hesl⟩)
    refine ⟨?_, ?_, ?_⟩ <;>
      simp [assembleResult, applyRule, hrb', hfn]

/-- C2.  The text-rule layer is dead code in the shipped table: every slug maps
to at most two detectors, so the accumulated local score never exceeds 0.75,
below the 0.8 emission threshold; consequently the rule engine's output is
exactly the bank-statement router's hits (score 0.9) followed by the
filename-hint hits (score 0.85). -/
theorem claim2_text_rules_dead :
    (∀ e ∈ TEXT_RULES, e.2.length ≤ 2) ∧
    (∀ (text : String), ∀ e ∈ TEXT_RULES, localScore e.2 text ≤ 3/4) ∧
    ((3 : ℚ)/4 < 4/5) ∧
    (∀ (text fname : String) (st : Option String),
      rules_from_text_and_filename text fname st =
        bankRouter text st ++ filenameHits fname) ∧
    (∀ (text fname : String) (st : Option String),
      ∀ h ∈ rules_from_text_and_filename text fname st,
        h.2.1 = 9/10 ∨ h.2.1 = 17/20) := by
  refine ⟨TEXT_RULES_len_le_two, ?_, by norm_num, ?_, ?_⟩
  · intro text e he
    exact localScore_le_of_len_le_two e.2 text (TEXT_RULES_len_le_two e he)
  · intro text fname st
    unfold rules_from_text_and_filename
    rw [textRules_silent, List.nil_append]
  · intro text fname st h hh
    unfold rules_from_text_and_filename at hh
    rw [textRules_silent, List.nil_append] at hh
    rcases List.mem_append.mp hh with hb | hf
    · exact Or.inl (bankRouter_scores text st h hb)
    · exact Or.inr (filenameHits_scores fname h hf)

theorem claim2_witness :
    ("dev_company_gst_pan", [GSTIN_RX]) ∈ TEXT_RULES ∧
    localScore [GSTIN_RX] "GSTIN: 36ABCDE1234F1Z5" ≤ 3/4 ∧
    rules_from_text_and_filename "hello" "GST_Certificate.pdf" none =
      bankRouter "hello" none ++ filenameHits "GST_Certificate.pdf" := by
  have hmem : ("dev_company_gst_pan", [GSTIN_RX]) ∈ TEXT_RULES := by
    unfold TEXT_RULES
    exact List.mem_cons_of_mem _ (List.mem_cons_self _ _)
  obtain ⟨_, h2, _, h4, _⟩ := claim2_text_rules_dead
  exact ⟨hmem, h2 "GSTIN: 36ABCDE1234F1Z5" _ hmem,
    h4 "hello" "GST_Certificate.pdf" none⟩

/-- C4.  The per-slug accumulation: the first matching detector contributes
0.5 and each later one 0.25 (so two matches give exactly 0.75 and three give
1.0); a hit is emitted only once the local score reaches 0.8, and every
emitted score is capped at 0.95. -/
theorem claim4_diminishing_returns :
    (∀ (regs : List Rx) (text : String),
      localScore regs text =
        if matchCount regs text = 0 then 0
        else 1/2 + ((matchCount regs text - 1 : Nat) : ℚ) / 4) ∧
    (∀ (regs : List Rx) (text : String),
      matchCount regs text = 2 → localScore regs text = 3/4) ∧
    (∀ (regs : List Rx) (text : String),
      matchCount regs text = 3 → localScore regs text = 1) ∧
    (∀ (slug : String) (regs : List Rx) (text : String),
      entryHit text (slug, regs) =
        if localScore regs text ≥ 4/5 then
          some (slug, addHitScore (localScore regs text),
            String.intercalate "; " ((regs.foldl (localScoreStep text) (0, [])).2))
        else none) ∧
    (∀ (text : String) (e : String × List Rx) (h : Hit),
      entryHit text e = some h → h.2.1 ≤ 19/20) := by
  refine ⟨localScore_formula, ?_, ?_, ?_, ?_⟩
  · intro regs text hk
    rw [localScore_formula, hk]
    norm_num
  · intro regs text hk
    rw [localScore_formula, hk]
    norm_num
  · intro slug regs text
    rfl
  · intro text e h hh
    unfold entryHit at hh
    simp only [] at hh
    split at hh
    · rw [Option.some_inj] at hh
      rw [← hh]
      exact addHitScore_le _
    · cases hh

theorem claim4_witness :
    matchCount [MOA_RX, AOA_RX] "MOA AOA" = 2 ∧
    localScore [MOA_RX, AOA_RX] "MOA AOA" = 3/4 ∧
    matchCount [MOA_RX, AOA_RX, COI_RX] "MOA AOA COI" = 3 ∧
    localScore [MOA_RX, AOA_RX, COI_RX] "MOA AOA COI" = 1 ∧
    addHitScore (localScore [MOA_RX, AOA_RX, COI_RX] "MOA AOA COI") ≤ 19/20 := by
  obtain ⟨_, h2, h3, h4, h5⟩ := claim4_diminishing_returns
  have hk2 : matchCount [MOA_RX, AOA_RX] "MOA AOA" = 2 := by decide
  have hk3 : matchCount [MOA_RX, AOA_RX, COI_RX] "MOA AOA COI" = 3 := by decide
  have hls3 : localScore [MOA_RX, AOA_RX, COI_RX] "MOA AOA COI" = 1 := h3 _ _ hk3
  have hhit := h4 "x" [MOA_RX, AOA_RX, COI_RX] "MOA AOA COI"
  rw [if_pos (by rw [hls3]; norm_num)] at hhit
  have hcap := h5 "MOA AOA COI" ("x", [MOA_RX, AOA_RX, COI_RX]) _ hhit
  exact ⟨hk2, h2 _ _ hk2, hk3, hls3, hcap⟩

def catRera : Category :=
  ⟨"ts_rera_certificate", "RERA Certificate", "project_approvals_documents",
   some "TS", none, [], [], ""⟩

theorem rera_rules_eval :
    rules_from_text_and_filename (docWindow []) "rera_approval.pdf" (some "TS") =
      [("ts_rera_certificate", addHitScore (17/20), "filename:rera"),
       ("ka_rera", addHitScore (17/20), "filename:rera")] := by
  have h1 : TEXT_RULES.filterMap (entryHit (docWindow [])) = [] := textRules_silent _
  have h2 : bankRouter (docWindow []) (some "TS") = [] := by
    have hb : BANK_STMT_RX.search (docWindow []) = false := by decide
    simp [bankRouter, hb]
  have h3 : filenameHits "rera_approval.pdf" =
      [("ts_rera_certificate", addHitScore (17/20), "filename:rera"),
       ("ka_rera", addHitScore (17/20), "filename:rera")] := rfl
  simp [rules_from_text_and_filename, h1, h2, h3]

theorem claim3_witness :
    ∃ r, categorize_document [] (fun _ _ => 0) 2 "rera_approval.pdf" [catRera] [] []
      (some "TS") = some r ∧ r.best_slug = "ts_rera_certificate" ∧
      r.rule = some ⟨"ts_rera_certificate", 17/20, "filename:rera"⟩ := by
  have hcat := categorize_singleton [] (fun _ _ => 0) 2 "rera_approval.pdf" catRera
    [] [] (some "TS")
  have hne : rules_from_text_and_filename (docWindow []) "rera_approval.pdf"
      (some "TS") ≠ [] := by
    rw [rera_rules_eval]
    simp
  obtain ⟨rb, hrb, hmem, _, topE, restE, hscl, hin, _⟩ :=
    claim3_rule_override [] (fun _ _ => 0) 2 "rera_approval.pdf" [catRera] [] []
      (some "TS") _ hcat hne
  have hrbval : rb = ("ts_rera_certificate", addHitScore (17/20), "filename:rera") := by
    rw [ruleBestOf, rera_rules_eval] at hrb
    simp only [maxHit, List.foldl_cons, List.foldl_nil] at hrb
    rw [if_neg (lt_irrefl _)] at hrb
    exact (Option.some_inj.mp hrb).symm
  have hslug : rb.1 ∈ ([catRera].map Category.slug) := by
    rw [hrbval]
    simp [catRera]
  obtain ⟨hbs, _, hrule⟩ := hin hslug
  refine ⟨_, hcat, ?_, ?_⟩
  · rw [hbs, hrbval]
  · rw [hrule, hrbval]
    have : addHitScore (17/20) = 17/20 := by
      rw [addHitScore]
      norm_num
    simp [this]

def gstText : String := "GSTIN: 36ABCDE1234F1Z5"

def gstChunks : List Chunk := [(1, gstText, none)]

theorem addHitScore_85 : addHitScore (17/20) = 17/20 := by
  rw [addHitScore]
  norm_num

theorem gst_rules_eval (st : Option String) :
    rules_from_text_and_filename (docWindow gstChunks) "GST_Certificate.pdf" st =
      [("dev_company_gst_pan", addHitScore (17/20), "filename:gst"),
       ("group_company_gst_pan", addHitScore (17/20), "filename:gst"),
       ("dev_llp_gst_pan", addHitScore (17/20), "filename:gst"),
       ("dev_partnership_gst_pan", addHitScore (17/20), "filename:gst")] := by
  have h1 : TEXT_RULES.filterMap (entryHit (docWindow gstChunks)) = [] :=
    textRules_silent _
  have h2 : bankRouter (docWindow gstChunks) st = [] := by
    have hb : BANK_STMT_RX.search (docWindow gstChunks) = false := by decide
    simp [bankRouter, hb]
  have h3 : filenameHits "GST_Certificate.pdf" =
      [("dev_company_gst_pan", addHitScore (17/20), "filename:gst"),
       ("group_company_gst_pan", addHitScore (17/20), "filename:gst"),
       ("dev_llp_gst_pan", addHitScore (17/20), "filename:gst"),
       ("dev_partnership_gst_pan", addHitScore (17/20), "filename:gst")] := rfl
  simp [rules_from_text_and_filename, h1, h2, h3]

theorem gst_rule_best (st : Option String) :
    ruleBestOf gstChunks "GST_Certificate.pdf" st =
      some ("dev_company_gst_pan", addHitScore (17/20), "filename:gst") := by
  rw [ruleBestOf, gst_rules_eval]
  simp [maxHit, lt_self_iff_false]

/-- C1.  End-to-end scenario: a document named `GST_Certificate.pdf` whose text
window contains a valid GSTIN and no other strong marker gets a rule hit for
`dev_company_gst_pan` within the 0.95 cap (the filename-hint layer fires at
0.85); when that slug is among the candidates it is forced as the winner, the
final status is accepted, and the unique, non-generic filename keeps its full
0.40 fusion weight without overriding the rule-forced slug. -/
theorem claim1_gst_scenario (cosine : List ℚ → List ℚ → ℚ) (doc_id : Nat)
    (cats : List Category) (cat_vecs : List (String × List ℚ))
    (fname_cnts : List (String × Nat)) (st : Option String) (r : CatResult)
    (hmem : "dev_company_gst_pan" ∈ cats.map Category.slug)
    (hdup : dupCountOf fname_cnts "GST_Certificate.pdf" ≤ 1)
    (hr : categorize_document gstChunks cosine doc_id "GST_Certificate.pdf" cats
      cat_vecs fname_cnts st = some r) :
    gstinB gstText = true ∧
    ("dev_company_gst_pan", (17/20 : ℚ), "filename:gst") ∈
      rules_from_text_and_filename (docWindow gstChunks) "GST_Certificate.pdf" st ∧
    ((17 : ℚ)/20 ≤ 19/20) ∧
    r.best_slug = "dev_company_gst_pan" ∧
    r.rule = some ⟨"dev_company_gst_pan", 17/20, "filename:gst"⟩ ∧
    r.status = "accepted" ∧
    r.weights = (2/5, 3/10, 3/10) := by
  obtain ⟨top, rest, hsc, hres⟩ :=
    categorize_some_spec gstChunks cosine doc_id "GST_Certificate.pdf" cats cat_vecs
      fname_cnts st r hr
  obtain ⟨e, he, hesl⟩ :=
    (sortedCands_slugs gstChunks cosine "GST_Certificate.pdf" cats cat_vecs
      (weightsOf "GST_Certificate.pdf" fname_cnts) "dev_company_gst_pan").mpr hmem
  rw [hsc] at he
  have hfs : ((top :: rest).find? (fun e => e.slug == "dev_company_gst_pan")).isSome :=
    List.find?_isSome.mpr ⟨e, he, by simp [hesl]⟩
  obtain ⟨e', hfe⟩ := Option.isSome_iff_exists.mp hfs
  have hweights : weightsOf "GST_Certificate.pdf" fname_cnts = (2/5, 3/10, 3/10) := by
    have hg : is_generic_filename "GST_Certificate.pdf" = false := by decide
    rw [weightsOf, hg, weight1]
    have h3 : ¬ (false || decide (dupCountOf fname_cnts "GST_Certificate.pdf" ≥ 3))
        = true := by
      simp only [Bool.false_or, decide_eq_true_eq]
      omega
    rw [if_neg h3, if_neg (by omega)]
  subst hres
  refine ⟨by decide, ?_, by norm_num, ?_, ?_, ?_, ?_⟩
  · have hconv : ("dev_company_gst_pan", (17/20 : ℚ), "filename:gst")
        = ("dev_company_gst_pan", addHitScore (17/20), "filename:gst") := by
      rw [addHitScore_85]
    rw [gst_rules_eval, hconv]
    exact List.mem_cons_self _ _
  · simp [assembleResult, applyRule, gst_rule_best, hfe]
  · rw [show (⟨"dev_company_gst_pan", 17/20, "filename:gst"⟩ : RuleApplied) =
      ⟨"dev_company_gst_pan", addHitScore (17/20), "filename:gst"⟩ by
        rw [addHitScore_85]]
    simp [assembleResult, applyRule, gst_rule_best, hfe]
  · have hge : (7 : ℚ)/10 ≤ max top.score (addHitScore (17/20)) := by
      refine le_trans ?_ (le_max_right _ _)
      rw [addHitScore_85]
      norm_num
    show statusOf (applyRule (top :: rest)
      (ruleBestOf gstChunks "GST_Certificate.pdf" st) top).2.1 = "accepted"
    have happly : (applyRule (top :: rest)
        (ruleBestOf gstChunks "GST_Certificate.pdf" st) top).2.1
        = max top.score (addHitScore (17/20)) := by
      simp [applyRule, gst_rule_best, hfe]
    rw [happly, statusOf, if_pos hge]
  · show weightsOf "GST_Certificate.pdf" fname_cnts = (2/5, 3/10, 3/10)
    exact hweights

def catGst : Category :=
  ⟨"dev_company_gst_pan", "GST Certificate", "dev_entity_identity", none, none,
   [], [], ""⟩

theorem claim1_witness :
    ∃ r, categorize_document gstChunks (fun _ _ => 0) 7 "GST_Certificate.pdf"
      [catGst] [] [] (some "TS") = some r ∧
      r.best_slug = "dev_company_gst_pan" ∧ r.status = "accepted" ∧
      r.weights = (2/5, 3/10, 3/10) := by
  have hcat := categorize_singleton gstChunks (fun _ _ => 0) 7 "GST_Certificate.pdf"
    catGst [] [] (some "TS")
  obtain ⟨_, _, _, hbs, _, hst, hw⟩ :=
    claim1_gst_scenario (fun _ _ => 0) 7 [catGst] [] [] (some "TS") _
      (by simp [catGst]) (by decide) hcat
  exact ⟨_, hcat, hbs, hst, hw⟩

theorem claim5_witness :
    ∃ r, categorize_document [] (fun _ _ => 0) 1 "invoice_acme.pdf" [catZz] []
      [("invoice_acme.pdf", 2)] none = some r ∧ r.weights = (1/5, 3/10, 3/10) := by
  cases h : categorize_document [] (fun _ _ => 0) 1 "invoice_acme.pdf" [catZz] []
      [("invoice_acme.pdf", 2)] none with
  | none =>
    have hs : (categorize_document [] (fun _ _ => 0) 1 "invoice_acme.pdf" [catZz] []
        [("invoice_acme.pdf", 2)] none).isSome = true := by decide
    rw [h] at hs
    cases hs
  | some r =>
    obtain ⟨h1, h2, _, h4, _⟩ :=
      claim5_weight_damping [] (fun _ _ => 0) 1 "invoice_acme.pdf" [catZz] []
        [("invoice_acme.pdf", 2)] none r h
    have hw1 : r.weights.1 = 1/5 := h4 ⟨by decide, by decide⟩
    refine ⟨r, rfl, ?_⟩
    have : r.weights = (r.weights.1, r.weights.2.1, r.weights.2.2) := rfl
    rw [this, hw1, h1, h2]

end AutoCat
